import Mathlib

set_option maxRecDepth 40000

/-!
Shallow embedding of `target_postgres/db_sync.py`: the schema-to-relational
mapping and table synchronization engine of a singer target for PostgreSQL.

Python values (JSON-like schema trees and records) are modeled by the
inductive `PVal`; Python exceptions by `Except PyErr`.  Machine strings are
Lean `String`s; the character-level operations (regex passes, case mapping)
are modeled on `List Char` with ASCII case semantics, matching the behavior
of the `re` / `inflection` library calls on the ASCII identifiers this code
manipulates.
-/

/-- Python exception classes raised by the code under `db_sync.py`.
Exception payloads (message strings) are not modeled; the spec's
`SchemaError` corresponds to `valueError`.  `outOfFuel` is an artifact of
the fuel-based encoding of the recursion in `flatten_schema` and is never
returned when the fuel bounds the tree size (the wrappers below supply
such fuel). -/
inductive PyErr where
  | valueError
  | keyError
  | indexError
  | attributeError
  | typeError
  | outOfFuel
deriving DecidableEq, Repr

deriving instance DecidableEq for Except

/-- A Python value as used by the schema flattener and record flattener:
strings, integers, booleans, None, lists and (insertion-ordered) dicts.
Lists and dicts are encoded by their own nil/cons constructors so that all
recursions stay structural (hence kernel-reducible). -/
inductive PVal where
  | str (s : String)
  | int (n : Int)
  | bool (b : Bool)
  | null
  | lnil
  | lcons (hd tl : PVal)
  | dnil
  | dcons (k : String) (v tl : PVal)
deriving DecidableEq, Repr

/-- Build a `PVal` list from a Lean list. -/
def pListV : List PVal → PVal
  | [] => .lnil
  | v :: rest => .lcons v (pListV rest)

/-- Build a `PVal` dict from a Lean association list. -/
def pDictV : List (String × PVal) → PVal
  | [] => .dnil
  | (k, v) :: rest => .dcons k v (pDictV rest)

/-- `d[k]` on a dict-shaped value: the value at the first matching key.
Returns `none` for a missing key or a non-dict value; callers translate
`none` into the exception Python would raise at that point. -/
def PVal.dGet : PVal → String → Option PVal
  | .dcons k v tl, key => if k = key then some v else tl.dGet key
  | _, _ => none

/-- `key in d.keys()` on a dict-shaped value. -/
def PVal.hasKey (d : PVal) (key : String) : Bool :=
  (d.dGet key).isSome

/-- `d[k] = v` on a dict-shaped value: Python assignment updates the first
occurrence in place keeping its position, and appends when absent. -/
def PVal.dSet : PVal → String → PVal → PVal
  | .dcons k v tl, key, nv => if k = key then .dcons k nv tl else .dcons k v (tl.dSet key nv)
  | .dnil, key, nv => .dcons key nv .dnil
  | other, _, _ => other

/-- `list(d.values())[0]` on a dict-shaped value. -/
def PVal.firstVal : PVal → Option PVal
  | .dcons _ v _ => some v
  | _ => none

/-- The elements of a list-shaped value as a Lean list. -/
def PVal.toList : PVal → List PVal
  | .lcons hd tl => hd :: tl.toList
  | _ => []

/-- List-shaped test: Python `isinstance(x, list)`. -/
def PVal.isList : PVal → Bool
  | .lnil => true
  | .lcons _ _ => true
  | _ => false

/-- Dict-shaped test: Python `isinstance(x, collections.MutableMapping)`. -/
def PVal.isDict : PVal → Bool
  | .dnil => true
  | .dcons _ _ _ => true
  | _ => false

/-- Python truthiness (`if not v`): None, False, 0, empty string, empty
list and empty dict are falsy. -/
def pyFalsy : PVal → Bool
  | .null => true
  | .bool b => !b
  | .int n => n = 0
  | .str s => s = ""
  | .lnil => true
  | .dnil => true
  | _ => false

/-- Substring test on character lists (Python `needle in haystack` for
strings). -/
def isInfixL (p : List Char) : List Char → Bool
  | [] => decide (p = [])
  | c :: tl => decide (p = (c :: tl).take p.length) || isInfixL p tl

/-- Python membership `needle in v` for a string needle, on the shapes
where it does not raise: substring test on strings, element test on lists,
key test on dicts.  Scalar containers raise `TypeError` in Python; callers
use `pyMemStr` to surface that. -/
def pyMemPure (needle : String) : PVal → Bool
  | .str s => isInfixL needle.data s.data
  | .lnil => false
  | .lcons hd tl => hd = .str needle || pyMemPure needle tl
  | .dnil => false
  | .dcons k _ tl => k = needle || pyMemPure needle tl
  | _ => false

/-- Python membership `needle in v` for a string needle, raising
`TypeError` on non-container values as Python does. -/
def pyMemStr (needle : String) (v : PVal) : Except PyErr Bool :=
  match v with
  | .str _ | .lnil | .lcons _ _ | .dnil | .dcons _ _ _ => .ok (pyMemPure needle v)
  | _ => .error .typeError

/-- Python membership `x in v` for an arbitrary needle (used for
`NULL_TYPE not in properties`): only list containers accept a dict
needle; strings and dicts raise `TypeError`. -/
def pyMemVal (x : PVal) (v : PVal) : Except PyErr Bool :=
  match v with
  | .lnil => .ok false
  | .lcons _ _ => .ok (v.toList.contains x)
  | _ => .error .typeError

/-- Python `len(v)` on sized containers. -/
def pyLen : PVal → Except PyErr Nat
  | .str s => .ok s.length
  | .lnil => .ok 0
  | .lcons _ tl => do
      let n ← pyLen tl
      .ok (n + 1)
  | .dnil => .ok 0
  | .dcons _ _ tl => do
      let n ← pyLen tl
      .ok (n + 1)
  | _ => .error .typeError

/-! ### ASCII character classes and case mapping

Python's `re` character classes `[A-Z]`, `[a-z]`, `[0-9]` and the `str`
case conversions as they act on ASCII (the identifiers this engine
builds). -/

/-- ASCII uppercase letter test (`[A-Z]`). -/
def isUp (c : Char) : Bool := 65 ≤ c.toNat && c.toNat ≤ 90

/-- ASCII lowercase letter test (`[a-z]`). -/
def isLo (c : Char) : Bool := 97 ≤ c.toNat && c.toNat ≤ 122

/-- ASCII digit test (`[0-9]`, i.e. `\d` on these inputs). -/
def isDig (c : Char) : Bool := 48 ≤ c.toNat && c.toNat ≤ 57

/-- ASCII lowercase conversion of one character. -/
def lowerCh (c : Char) : Char :=
  if isUp c then Char.ofNat (c.toNat + 32) else c

/-- ASCII uppercase conversion of one character. -/
def upperCh (c : Char) : Char :=
  if isLo c then Char.ofNat (c.toNat - 32) else c

/-- `str.lower()` over a character list. -/
def lowerL (l : List Char) : List Char := l.map lowerCh

/-! ### The regex substitution passes of `inflect_column_name`

`inflect_column_name` performs, in order:
  1. `re.sub(r"([A-Z]+)_([A-Z][a-z])", r'\1__\2', name)`   (`pre1`)
  2. `re.sub(r"([a-z\d])_([A-Z])", r'\1__\2', name)`       (`pre2`)
  3. `inflection.underscore(name)`, which is
     `re.sub(r"([A-Z]+)([A-Z][a-z])", r'\1_\2', word)`     (`sub1`)
     `re.sub(r"([a-z\d])([A-Z])", r'\1_\2', word)`         (`sub2`)
     `word.replace("-", "_")`                              (`dashRepl`)
     `word.lower()`                                        (`lowerL`)

Each pass is encoded as a left-to-right scanner that reproduces
`re.sub`'s leftmost, non-overlapping match semantics for its fixed
pattern. -/

/-- Scanner for `([A-Z]+)_([A-Z][a-z]) -> \1__\2`.  `run` accumulates the
current maximal uppercase run, in reverse. -/
def pre1Aux (run : List Char) : List Char → List Char
  | [] => run.reverse
  | [c] =>
    if isUp c then (c :: run).reverse
    else run.reverse ++ [c]
  | [c, d] =>
    if isUp c then pre1Aux (c :: run) [d]
    else run.reverse ++ c :: pre1Aux [] [d]
  | c :: d :: e :: rest =>
    if isUp c then pre1Aux (c :: run) (d :: e :: rest)
    else if c = '_' && !run.isEmpty && isUp d && isLo e then
      run.reverse ++ '_' :: '_' :: d :: e :: pre1Aux [] rest
    else run.reverse ++ c :: pre1Aux [] (d :: e :: rest)

/-- Scanner for `([a-z\d])_([A-Z]) -> \1__\2`. -/
def pre2 : List Char → List Char
  | [] => []
  | [c] => [c]
  | [c, d] => [c, d]
  | c :: d :: e :: rest =>
    if (isLo c || isDig c) && d = '_' && isUp e then c :: '_' :: '_' :: e :: pre2 rest
    else c :: pre2 (d :: e :: rest)

/-- Scanner for `([A-Z]+)([A-Z][a-z]) -> \1_\2` (first pass of
`inflection.underscore`).  `run` accumulates the current maximal
uppercase run, in reverse; a boundary is inserted before the last
uppercase of a run of length at least two followed by a lowercase. -/
def sub1Aux (run : List Char) : List Char → List Char
  | [] => run.reverse
  | c :: rest =>
    if isUp c then sub1Aux (c :: run) rest
    else if isLo c then
      match run with
      | r1 :: r2 :: rs => (r2 :: rs).reverse ++ '_' :: r1 :: c :: sub1Aux [] rest
      | _ => run.reverse ++ c :: sub1Aux [] rest
    else run.reverse ++ c :: sub1Aux [] rest

/-- Scanner for `([a-z\d])([A-Z]) -> \1_\2` (second pass of
`inflection.underscore`). -/
def sub2 : List Char → List Char
  | [] => []
  | [c] => [c]
  | c :: d :: rest =>
    if (isLo c || isDig c) && isUp d then c :: '_' :: d :: sub2 rest
    else c :: sub2 (d :: rest)

/-- `word.replace("-", "_")`. -/
def dashRepl (l : List Char) : List Char :=
  l.map fun c => if c = '-' then '_' else c

/-- `inflection.underscore` on a character list. -/
def underscoreL (l : List Char) : List Char :=
  lowerL (dashRepl (sub2 (sub1Aux [] l)))

/-- `inflect_column_name` on a character list: the two
underscore-doubling passes followed by `inflection.underscore`. -/
def inflectL (l : List Char) : List Char :=
  underscoreL (pre2 (pre1Aux [] l))

/-- `inflect_column_name(name)` from `db_sync.py`. -/
def inflect_column_name (name : String) : String :=
  String.mk (inflectL name.data)

/-! ### `flatten_key` and its truncation loop -/

/-- `inflection.camelize(string)` (default `uppercase_first_letter=True`):
`re.sub(r"(?:^|_)(.)", lambda m: m.group(1).upper(), string)` — the first
character, and each character directly preceded by an underscore, is
uppercased and the preceding underscore removed. -/
def camelizeAux : List Char → List Char
  | [] => []
  | [c] => [c]
  | c :: d :: rest =>
    if c = '_' then upperCh d :: camelizeAux rest
    else c :: camelizeAux (d :: rest)

/-- `inflection.camelize` on a character list. -/
def camelizeL : List Char → List Char
  | [] => []
  | c :: rest => upperCh c :: camelizeAux rest

/-- `re.sub(r'[a-z]', '', s)`: delete all ASCII lowercase letters. -/
def removeLower (l : List Char) : List Char :=
  l.filter fun c => !isLo c

/-- One truncation step of `flatten_key` applied to a segment:
the uppercase skeleton of the re-camelized segment if that skeleton has
length greater than one, else the segment's first three characters;
either way lowercased. -/
def reduceSegment (s : String) : String :=
  if 1 < (removeLower (camelizeL s.data)).length then
    String.mk (lowerL (removeLower (camelizeL s.data)))
  else String.mk (lowerL (s.data.take 3))

/-- `sep.join(strings)`. -/
def joinSep (sep : String) : List String → String
  | [] => ""
  | [s] => s
  | s :: rest => s ++ sep ++ joinSep sep rest

/-- The `while` loop of `flatten_key`: `done` holds the segments already
visited (indices below `reducer_index`), `todo` the rest.  While the
joined length is at least 63 and segments remain, the current segment is
reduced and the index advances. -/
def reduceLoopGo (sep : String) (done : List String) : List String → List String
  | [] => done
  | t :: ts =>
    if 63 ≤ (joinSep sep (done ++ t :: ts)).length then
      reduceLoopGo sep (done ++ [reduceSegment t]) ts
    else done ++ t :: ts

/-- `flatten_key(k, parent_key, sep)` from `db_sync.py`. -/
def flatten_key (k : String) (parent_key : List String) (sep : String) : String :=
  let full_key := parent_key ++ [k]
  let inflected_key := full_key.map inflect_column_name
  joinSep sep (reduceLoopGo sep [] inflected_key)

/-! ### String ordering, sorting, and the Python dict constructor -/

/-- Python string comparison: lexicographic by code point. -/
def strLtL : List Char → List Char → Bool
  | [], [] => false
  | [], _ :: _ => true
  | _ :: _, [] => false
  | a :: as, b :: bs => a.toNat < b.toNat || (a.toNat = b.toNat && strLtL as bs)

/-- Python `a < b` on strings. -/
def strLt (a b : String) : Bool := strLtL a.data b.data

/-- Python `a <= b` on strings. -/
def strLe (a b : String) : Bool := strLt a b || a = b

/-- Insert an item into a list sorted ascending by flat column name. -/
def insertSorted (p : String × PVal) : List (String × PVal) → List (String × PVal)
  | [] => [p]
  | q :: rest => if strLe p.1 q.1 then p :: q :: rest else q :: insertSorted p rest

/-- `sorted(items, key=lambda item: item[0])`: ascending by flat column
name (code-point order, as Python compares strings). -/
def sortItems : List (String × PVal) → List (String × PVal)
  | [] => []
  | p :: rest => insertSorted p (sortItems rest)

/-- The `itertools.groupby` duplicate check of `flatten_schema` over an
already-sorted item list: some group has more than one element exactly
when two adjacent items share their key. -/
def hasAdjDupKey : List (String × PVal) → Bool
  | (k1, _) :: (k2, v2) :: rest => k1 = k2 || hasAdjDupKey ((k2, v2) :: rest)
  | _ => false

/-- One insertion into a Python dict under construction: a duplicate key
keeps its first position but takes the new value; a new key is appended. -/
def pyDictInsert (acc : List (String × PVal)) (k : String) (v : PVal) :
    List (String × PVal) :=
  if acc.any (fun p => p.1 = k) then acc.map (fun p => if p.1 = k then (p.1, v) else p)
  else acc ++ [(k, v)]

/-- `dict(items)` on an association list: Python keeps the first position
of each key and the last value assigned to it. -/
def pyDict (l : List (String × PVal)) : List (String × PVal) :=
  l.foldl (fun acc p => pyDictInsert acc p.1 p.2) []

/-! ### `flatten_schema` -/

/-- `NULL_TYPE = {'type': 'null'}`. -/
def NULL_TYPE : PVal := .dcons "type" (.str "null") .dnil

/-- Replace the first element of a list-shaped value that differs from
`NULL_TYPE` (the element Python's in-place mutation of the filtered
branch dict updates). -/
def replaceFirstNonNull : PVal → PVal → PVal
  | .lcons hd tl, nv =>
    if hd = NULL_TYPE then .lcons hd (replaceFirstNonNull tl nv) else .lcons nv tl
  | other, _ => other

/-- Overwrite the first value of a dict-shaped value (the object whose
mutation `list(v.values())[0]` aliases). -/
def PVal.setFirstVal : PVal → PVal → PVal
  | .dcons k _ tl, nv => .dcons k nv tl
  | other, _ => other

mutual

/-- `flatten_schema(d, parent_key, sep)` from `db_sync.py`, with the
recursion bounded by an explicit fuel (the wrapper `flatten_schema`
supplies fuel exceeding every reachable recursion depth, so `outOfFuel`
is never returned by it).  Returns the flattened items together with the
post-call input tree — `flatten_schema` mutates nullable-union branches
of its argument in place, so the input tree is threaded explicitly. -/
def flattenS : Nat → PVal → List String → String →
    Except PyErr (List (String × PVal) × PVal)
  | 0, _, _, _ => .error .outOfFuel
  | fuel + 1, d, parent_key, sep =>
    if d.isDict then
      match d.dGet "properties" with
      | none => .error .keyError
      | some props =>
        if props.isDict then do
          let (items, props2) ← flattenL fuel props parent_key sep
          if hasAdjDupKey (sortItems items) then .error .valueError
          else .ok (pyDict (sortItems items), d.dSet "properties" props2)
        else .error .attributeError
    else .error .typeError

/-- The `for k, v in d['properties'].items()` loop of `flatten_schema`:
walks the entries of the properties dict, concatenating the items each
entry contributes and rebuilding the (possibly mutated) entries. -/
def flattenL : Nat → PVal → List String → String →
    Except PyErr (List (String × PVal) × PVal)
  | 0, _, _, _ => .error .outOfFuel
  | fuel + 1, entries, parent_key, sep =>
    match entries with
    | .dnil => .ok ([], .dnil)
    | .dcons k v tl => do
        let (its, v2) ← handleValue fuel k v parent_key sep
        let (rest, tl2) ← flattenL fuel tl parent_key sep
        .ok (its ++ rest, .dcons k v2 tl2)
    | _ => .error .attributeError

/-- The body of the `flatten_schema` loop for one property `(k, v)`:
skip falsy definitions; recurse into object types; accept plain typed
leaves; unwrap `anyOf` nodes, raising `ValueError` when the null marker
is absent or the branch list is longer than two, `IndexError` when no
non-null branch remains, and normalizing a non-list `type` of the
accepted branch in place to `['null', <type>]`; raise `ValueError` on any
other shape.  Returns the contributed items and the post-call `v`. -/
def handleValue : Nat → String → PVal → List String → String →
    Except PyErr (List (String × PVal) × PVal)
  | 0, _, _, _, _ => .error .outOfFuel
  | fuel + 1, k, v, parent_key, sep =>
    if pyFalsy v then .ok ([], v)
    else if v.isDict then
      match v.dGet "type" with
      | some t => do
          let isObj ← pyMemStr "object" t
          if isObj then flattenS fuel v (parent_key ++ [k]) sep
          else .ok ([(flatten_key k parent_key sep, v)], v)
      | none =>
        if v.hasKey "anyOf" then
          match v.firstVal with
          | none => .error .indexError
          | some properties => do
              let hasNull ← pyMemVal NULL_TYPE properties
              if !hasNull then .error .valueError
              else do
                let len ← pyLen properties
                if 2 < len then .error .valueError
                else
                  match properties.toList.filter (fun x => x ≠ NULL_TYPE) with
                  | [] => .error .indexError
                  | property :: _ =>
                    match property.dGet "type" with
                    | some t =>
                      if t.isList then .ok ([(flatten_key k parent_key sep, property)], v)
                      else
                        .ok ([(flatten_key k parent_key sep,
                                property.dSet "type" (pListV [.str "null", t]))],
                             v.setFirstVal (replaceFirstNonNull properties
                               (property.dSet "type" (pListV [.str "null", t]))))
                    | none =>
                      if property.isDict then .error .keyError else .error .typeError
        else .error .valueError
    else .error .attributeError

end

/-- Structural size of a `PVal`, used as recursion fuel for
`flatten_schema`. -/
def PVal.pySize : PVal → Nat
  | .lcons hd tl => hd.pySize + tl.pySize + 1
  | .dcons _ v tl => v.pySize + tl.pySize + 1
  | _ => 1

/-- `flatten_schema(d)` with the default `parent_key=[]` and `sep='__'`
made explicit.  Every full descent step (`flattenS` to `flattenL` to
`handleValue` and back into `flattenS`) spends three units of fuel while
reaching a value whose size is smaller by at least four, so a fuel of
`d.pySize` is never exhausted. -/
def flatten_schema (d : PVal) (parent_key : List String) (sep : String) :
    Except PyErr (List (String × PVal) × PVal) :=
  flattenS d.pySize d parent_key sep

/-! ### `flatten_record` -/

/-- Characters of a JSON string literal body: `json.dumps` escaping of
quote and backslash (control-character escapes are not modeled; the
records flattened here do not contain them). -/
def jsonEscape : List Char → List Char
  | [] => []
  | c :: rest =>
    if c = '"' || c = '\\' then '\\' :: c :: jsonEscape rest
    else c :: jsonEscape rest

mutual

/-- `json.dumps(v)` with the default separators `', '` and `': '`. -/
def jsonDumps : PVal → String
  | .str s => "\"" ++ String.mk (jsonEscape s.data) ++ "\""
  | .int n => toString n
  | .bool true => "true"
  | .bool false => "false"
  | .null => "null"
  | .lnil => "[]"
  | .lcons hd tl => "[" ++ jsonDumps hd ++ jsonRestL tl
  | .dnil => "\x7b\x7d"
  | .dcons k v tl =>
    "\x7b" ++ "\"" ++ String.mk (jsonEscape k.data) ++ "\": " ++ jsonDumps v ++ jsonRestD tl

/-- Remaining elements of a JSON array rendering. -/
def jsonRestL : PVal → String
  | .lcons hd tl => ", " ++ jsonDumps hd ++ jsonRestL tl
  | _ => "]"

/-- Remaining entries of a JSON object rendering. -/
def jsonRestD : PVal → String
  | .dcons k v tl => ", " ++ "\"" ++ String.mk (jsonEscape k.data) ++ "\": " ++ jsonDumps v ++ jsonRestD tl
  | _ => "\x7d"

end

/-- The `for k, v in d.items()` loop of `flatten_record`: nested mappings
are recursively flattened (each level passing through `dict(...)`), list
values are serialized with `json.dumps`, every other value is kept as
is. -/
def flattenRecItems : PVal → List String → String →
    Except PyErr (List (String × PVal))
  | .dnil, _, _ => .ok []
  | .dcons k v tl, parent_key, sep => do
      let hd ←
        if v.isDict then do
          let inner ← flattenRecItems v (parent_key ++ [k]) sep
          Except.ok (pyDict inner)
        else if v.isList then
          Except.ok [(flatten_key k parent_key sep, PVal.str (jsonDumps v))]
        else Except.ok [(flatten_key k parent_key sep, v)]
      let rest ← flattenRecItems tl parent_key sep
      .ok (hd ++ rest)
  | _, _, _ => .error .attributeError

/-- `flatten_record(d, parent_key, sep)` from `db_sync.py`: the flattened
items, deduplicated by `dict(items)` (last value wins, no error on
duplicate flat names). -/
def flatten_record (d : PVal) (parent_key : List String) (sep : String) :
    Except PyErr (List (String × PVal)) := do
  let items ← flattenRecItems d parent_key sep
  .ok (pyDict items)

/-! ### `column_type` and the spec-side type-mapping table -/

/-- `column_type(schema_property)` from `db_sync.py`: reads
`schema_property['type']` (raising `KeyError` when absent) and cascades
through the containment checks in source order.  Python's `in` is
substring containment when the type field is a string and membership when
it is a list. -/
def column_type (schema_property : PVal) : Except PyErr String :=
  if schema_property.isDict then
    match schema_property.dGet "type" with
    | none => .error .keyError
    | some property_type => do
        let property_format := schema_property.dGet "format"
        let o ← pyMemStr "object" property_type
        if o then .ok "jsonb"
        else do
          let a ← pyMemStr "array" property_type
          if a then .ok "jsonb"
          else if property_format = some (.str "date-time") then
            .ok "timestamp without time zone"
          else do
            let n ← pyMemStr "number" property_type
            if n then .ok "numeric"
            else do
              let i ← pyMemStr "integer" property_type
              let s ← pyMemStr "string" property_type
              if i && s then .ok "character varying"
              else if i then .ok "bigint"
              else do
                let b ← pyMemStr "boolean" property_type
                if b then .ok "boolean"
                else .ok "character varying"
  else .error .typeError

/-- Modelled from the spec: the Type Mapper contract of section 4.2 — a
pure total function over descriptors, checking the spec's table rows in
order, with unknown or missing type information falling back to
variable-length text.  Stated for comparison with `column_type`, which
the claim asserts realizes this table. -/
def mapTypeSpec (schema_property : PVal) : String :=
  match schema_property.dGet "type" with
  | none => "character varying"
  | some t =>
    if pyMemPure "object" t || pyMemPure "array" t then "jsonb"
    else if schema_property.dGet "format" = some (.str "date-time") then
      "timestamp without time zone"
    else if pyMemPure "number" t then "numeric"
    else if pyMemPure "integer" t && pyMemPure "string" t then "character varying"
    else if pyMemPure "integer" t then "bigint"
    else if pyMemPure "boolean" t then "boolean"
    else "character varying"

/-- `safe_column_name(name)`: the quoted identifier. -/
def safe_column_name (name : String) : String := "\"" ++ name ++ "\""

/-- `column_clause(name, schema_property)`. -/
def column_clause (name : String) (schema_property : PVal) : Except PyErr String := do
  let t ← column_type schema_property
  .ok (safe_column_name name ++ " " ++ t)

/-- `primary_column_names(stream_schema_message)`: the inflected, quoted
key property names. -/
def primary_column_names (key_properties : List String) : List String :=
  key_properties.map fun p => safe_column_name (inflect_column_name p)

/-! ### `DbSync`: table synchronization and the staged-load statements -/

/-- The state of a `DbSync` instance that the SQL generators read: the
target schema name from the connection config, the stream name and key
properties from the stream schema message, and the flattened schema
computed at construction. -/
structure DbSync where
  schema_name : String
  stream : String
  key_properties : List String
  flatten_schema : List (String × PVal)

/-- `table_name(table_name, is_temporary)`. -/
def DbSync.table_name (db : DbSync) (tname : String) (is_temporary : Bool) : String :=
  if is_temporary then tname ++ "_temp" else db.schema_name ++ "." ++ tname

/-- `column_names()`: quoted flattened-schema column names in canonical
(sorted) order. -/
def DbSync.column_names (db : DbSync) : List String :=
  db.flatten_schema.map fun p => safe_column_name p.1

/-- `primary_key_condition(right_table)`. -/
def DbSync.primary_key_condition (db : DbSync) (right_table : String) : String :=
  joinSep " AND " ((primary_column_names db.key_properties).map
    fun c => "s." ++ c ++ " = " ++ right_table ++ "." ++ c)

/-- `primary_key_null_condition(right_table)`. -/
def DbSync.primary_key_null_condition (db : DbSync) (right_table : String) : String :=
  joinSep " AND " ((primary_column_names db.key_properties).map
    fun c => right_table ++ "." ++ c ++ " is null")

/-- `insert_from_temp_table()`: the plain append when no key properties
exist, otherwise the anti-join insert of rows whose key is absent. -/
def DbSync.insert_from_temp_table (db : DbSync) : String :=
  let columns := db.column_names
  let table := db.table_name db.stream false
  let temp_table := db.table_name db.stream true
  if db.key_properties.length = 0 then
    "INSERT INTO " ++ table ++ " (" ++ joinSep ", " columns ++
      ")\n                    (SELECT s.* FROM " ++ temp_table ++
      " s)\n                    "
  else
    "INSERT INTO " ++ table ++ " (" ++ joinSep ", " columns ++
      ")\n        (SELECT s.* FROM " ++ temp_table ++ " s LEFT OUTER JOIN " ++
      table ++ " t ON " ++ db.primary_key_condition "t" ++ " WHERE " ++
      db.primary_key_null_condition "t" ++ ")\n        "

/-- `update_from_temp_table()`: the key-matched update from the staging
table. -/
def DbSync.update_from_temp_table (db : DbSync) : String :=
  let columns := db.column_names
  let table := db.table_name db.stream false
  let temp_table := db.table_name db.stream true
  "UPDATE " ++ table ++ " SET " ++
    joinSep ", " (columns.map fun c => c ++ "=s." ++ c) ++
    " FROM " ++ temp_table ++ " s\n        WHERE " ++
    db.primary_key_condition table ++ "\n        "

/-- `drop_temp_table()`. -/
def DbSync.drop_temp_table (db : DbSync) : String :=
  "DROP TABLE " ++ db.table_name db.stream true

/-- The `column_clause` of every flattened column, in canonical order
(the list comprehension inside `create_table_query`). -/
def columnClauses : List (String × PVal) → Except PyErr (List String)
  | [] => .ok []
  | (name, schema) :: rest => do
      let c ← column_clause name schema
      let r ← columnClauses rest
      .ok (c :: r)

/-- `create_table_query(is_temporary)`. -/
def DbSync.create_table_query (db : DbSync) (is_temporary : Bool) : Except PyErr String := do
  let columns ← columnClauses db.flatten_schema
  let primary_key :=
    if db.key_properties.length ≠ 0 then
      ["PRIMARY KEY (" ++ joinSep ", " (primary_column_names db.key_properties) ++ ")"]
    else []
  .ok ("CREATE " ++ (if is_temporary then "TEMP " else "") ++ "TABLE " ++
       db.table_name db.stream is_temporary ++ " (" ++
       joinSep ", " (columns ++ primary_key) ++ ")")

/-- The `COPY ... FROM STDIN` statement issued through `copy_expert`. -/
def DbSync.copy_sql (db : DbSync) : String :=
  "COPY " ++ db.table_name db.stream true ++ " (" ++ joinSep ", " db.column_names ++
    ") FROM STDIN WITH (FORMAT CSV, ESCAPE '\\')"

/-- The statements `load_csv` executes against the cursor on its happy
path, in order: create the temporary table, bulk-copy into it, update
matching-key rows first when key properties exist, insert, and drop the
temporary table.  (The `psycopg2.DataError` handler around this sequence
is the batch-rejection path and issues no further statements.) -/
def DbSync.load_csv_statements (db : DbSync) : Except PyErr (List String) := do
  let create ← db.create_table_query true
  .ok ([create, db.copy_sql] ++
       (if 0 < db.key_properties.length then [db.update_from_temp_table] else []) ++
       [db.insert_from_temp_table, db.drop_temp_table])

/-! ### `update_columns`: schema evolution against the live catalog -/

/-- Lowercase a string (ASCII, as these identifiers are). -/
def lowerStr (s : String) : String := String.mk (lowerL s.data)

/-- The dict comprehension
`{column['column_name'].lower(): column for column in columns}` read at
one key: a later row with the same lowercased name shadows an earlier
one. -/
def cdictFind (columns : List (String × String)) (key : String) : Option (String × String) :=
  columns.reverse.find? fun c => lowerStr c.1 = key

/-- One ALTER action performed by `update_columns` (`add_column` or
`drop_column`, which wrap the clause in `ALTER TABLE ... ADD COLUMN` and
`ALTER TABLE ... DROP COLUMN`). -/
inductive DbAction where
  | addColumn (clause : String)
  | dropColumn (name : String)
deriving DecidableEq, Repr

/-- The `columns_to_add` comprehension of `update_columns`: a clause for
every flattened column whose lowercased name is absent from the live
catalog. -/
def columns_to_add : List (String × PVal) → List (String × String) →
    Except PyErr (List String)
  | [], _ => .ok []
  | (name, schema) :: rest, columns =>
    if (cdictFind columns (lowerStr name)).isNone then do
      let c ← column_clause name schema
      let r ← columns_to_add rest columns
      .ok (c :: r)
    else columns_to_add rest columns

/-- The `columns_to_replace` comprehension of `update_columns`: the
quoted name and fresh clause of every flattened column present in the
catalog whose recorded data type differs (case-insensitively) from the
newly mapped type. -/
def columns_to_replace : List (String × PVal) → List (String × String) →
    Except PyErr (List (String × String))
  | [], _ => .ok []
  | (name, schema) :: rest, columns =>
    match cdictFind columns (lowerStr name) with
    | some col => do
        let ct ← column_type schema
        if lowerStr col.2 ≠ lowerStr ct then do
          let c ← column_clause name schema
          let r ← columns_to_replace rest columns
          .ok ((safe_column_name name, c) :: r)
        else columns_to_replace rest columns
    | none => columns_to_replace rest columns

/-- `update_columns()` against an observed catalog (the
`column_name`/`data_type` rows `get_table_columns` returned): first add
every missing column, then drop and re-add every type-changed column, in
list order. -/
def DbSync.update_columns (db : DbSync) (columns : List (String × String)) :
    Except PyErr (List DbAction) := do
  let adds ← columns_to_add db.flatten_schema columns
  let reps ← columns_to_replace db.flatten_schema columns
  .ok (adds.map DbAction.addColumn ++
       reps.flatMap fun p => [DbAction.dropColumn p.1, DbAction.addColumn p.2])

/-- No property node anywhere in the tree uses the nullable-union
(`anyOf`) shape. -/
def noAnyOf : PVal → Bool
  | .dcons k v tl => k ≠ "anyOf" && noAnyOf v && noAnyOf tl
  | .lcons v tl => noAnyOf v && noAnyOf tl
  | _ => true

/-- Shapes on which Python membership does not raise `TypeError`:
strings, lists and dicts. -/
def memSafe : PVal → Bool
  | .str _ => true
  | .lnil => true
  | .lcons _ _ => true
  | .dnil => true
  | .dcons _ _ _ => true
  | _ => false


/-- Modelled from the spec (section 4.1 step 1, quoted by claim C6): the
raw segment is normalized by exactly two boundary passes — a boundary
inside an uppercase run before an uppercase+lowercase pair, then a
boundary between a lowercase-or-digit and an uppercase — and then
lowercased with an underscore at every detected boundary. -/
def two_pass_snake (name : String) : String :=
  String.mk (lowerL (sub2 (sub1Aux [] name.data)))

/-! ## Character-level lemmas -/

theorem toNat_ofNat_valid (n : Nat) (h : n.isValidChar) : (Char.ofNat n).toNat = n := by
  simp [Char.ofNat, h]
  rfl

theorem toNat_lowerCh (c : Char) :
    (lowerCh c).toNat = if isUp c then c.toNat + 32 else c.toNat := by
  unfold lowerCh
  split
  · rename_i h
    have hb : 65 ≤ c.toNat ∧ c.toNat ≤ 90 := by
      simpa [isUp, Bool.and_eq_true, decide_eq_true_eq] using h
    have hv : (c.toNat + 32).isValidChar := Or.inl (by omega)
    simp [toNat_ofNat_valid _ hv, *]
  · simp_all

theorem toNat_upperCh (c : Char) :
    (upperCh c).toNat = if isLo c then c.toNat - 32 else c.toNat := by
  unfold upperCh
  split
  · rename_i h
    have hb : 97 ≤ c.toNat ∧ c.toNat ≤ 122 := by
      simpa [isLo, Bool.and_eq_true, decide_eq_true_eq] using h
    have hv : (c.toNat - 32).isValidChar := Or.inl (by omega)
    simp [toNat_ofNat_valid _ hv, *]
  · simp_all

theorem char_toNat_inj {a b : Char} (h : a.toNat = b.toNat) : a = b := by
  apply Char.ext
  apply UInt32.ext
  simpa [Char.toNat, UInt32.toNat] using h

theorem isUp_lowerCh (c : Char) : isUp (lowerCh c) = false := by
  have ht := toNat_lowerCh c
  by_cases h : isUp c = true
  · have hb : 65 ≤ c.toNat ∧ c.toNat ≤ 90 := by
      simpa [isUp, Bool.and_eq_true, decide_eq_true_eq] using h
    simp [h] at ht
    simp [isUp, ht]
    omega
  · simp [Bool.not_eq_true] at h
    simp [h] at ht
    simp [isUp, ht]
    simpa [isUp, Bool.and_eq_true, decide_eq_true_eq, Decidable.not_and_iff_or_not] using h

theorem lowerCh_id {c : Char} (h : isUp c = false) : lowerCh c = c := by
  unfold lowerCh
  simp [h]

theorem dash_toNat : ('-' : Char).toNat = 45 := rfl

theorem lowerCh_ne_dash {c : Char} (h : c ≠ '-') : lowerCh c ≠ '-' := by
  intro he
  have ht := toNat_lowerCh c
  rw [he, dash_toNat] at ht
  by_cases hu : isUp c = true
  · have hb : 65 ≤ c.toNat ∧ c.toNat ≤ 90 := by
      simpa [isUp, Bool.and_eq_true, decide_eq_true_eq] using hu
    simp [hu] at ht
    omega
  · simp [Bool.not_eq_true] at hu
    simp [hu] at ht
    exact h (char_toNat_inj (by rw [← ht, dash_toNat]))

theorem upperCh_ne_dash {c : Char} (h : c ≠ '-') : upperCh c ≠ '-' := by
  intro he
  have ht := toNat_upperCh c
  rw [he, dash_toNat] at ht
  by_cases hl : isLo c = true
  · have hb : 97 ≤ c.toNat ∧ c.toNat ≤ 122 := by
      simpa [isLo, Bool.and_eq_true, decide_eq_true_eq] using hl
    simp [hl] at ht
    omega
  · simp [Bool.not_eq_true] at hl
    simp [hl] at ht
    exact h (char_toNat_inj (by rw [← ht, dash_toNat]))

/-! ## Identity of the substitution passes without their trigger
characters -/

theorem pre1Aux_no_underscore : ∀ run l, (∀ c ∈ l, c ≠ '_') →
    pre1Aux run l = run.reverse ++ l := by
  intro run l
  induction run, l using pre1Aux.induct with
  | case1 run => intro _; simp [pre1Aux]
  | case2 run c hc => intro _; simp [pre1Aux, hc]
  | case3 run c hc => intro _; simp [pre1Aux, hc]
  | case4 run c d hc ih =>
    intro h
    by_cases hd : isUp d = true <;> simp [pre1Aux, hc, hd]
  | case5 run c d hc ih =>
    intro h
    by_cases hd : isUp d = true <;> simp [pre1Aux, hc, hd]
  | case6 run c d e rest hc ih =>
    intro h
    have := ih (fun x hx => h x (by simp [hx]))
    simp only [pre1Aux, hc, if_true, this]
    simp
  | case7 run c d e rest hc hcond ih =>
    intro h
    exfalso
    apply h c (by simp)
    simp only [Bool.and_eq_true, decide_eq_true_eq] at hcond
    exact hcond.1.1.1
  | case8 run c d e rest hc hcond ih =>
    intro h
    have := ih (fun x hx => h x (by simp [hx]))
    simp only [pre1Aux, hc, if_false, hcond, this]
    simp

theorem pre2_no_underscore : ∀ l, (∀ c ∈ l, c ≠ '_') → pre2 l = l := by
  intro l
  induction l using pre2.induct with
  | case1 => intro _; rfl
  | case2 c => intro _; rfl
  | case3 c d => intro _; rfl
  | case4 c d e rest hcond ih =>
    intro h
    exfalso
    apply h d (by simp)
    simp only [Bool.and_eq_true, decide_eq_true_eq] at hcond
    exact hcond.1.2
  | case5 c d e rest hcond ih =>
    intro h
    have := ih (fun x hx => h x (by simp [hx]))
    simp [pre2, hcond, this]

theorem mem_sub1Aux : ∀ run l x, x ∈ sub1Aux run l → x ∈ run ∨ x ∈ l ∨ x = '_' := by
  intro run l
  induction run, l using sub1Aux.induct with
  | case1 =>
    intro x hx
    simp [sub1Aux] at hx
    tauto
  | case2 =>
    rename_i run c tl hc ih
    intro x hx
    simp only [sub1Aux, hc, if_true] at hx
    rcases ih x hx with h | h | h
    · rcases List.mem_cons.mp h with h | h
      · right; left; simp [h]
      · tauto
    · right; left; simp [h]
    · tauto
  | case3 =>
    rename_i c tl hc hl r1 r2 rs ih
    intro x hx
    simp only [sub1Aux, hc, hl] at hx
    simp only [if_true, Bool.false_eq_true, if_false] at hx
    simp only [List.mem_append, List.mem_cons, List.mem_reverse] at hx
    rcases hx with h | h | h | h | h
    · left; simp [h]
    · right; right; exact h
    · left; simp [h]
    · right; left; simp [h]
    · rcases ih x h with h2 | h2 | h2
      · simp at h2
      · right; left; simp [h2]
      · tauto
  | case4 =>
    rename_i run c tl hc hl hne ih
    intro x hx
    simp only [sub1Aux, hc, hl] at hx
    simp only [if_true, Bool.false_eq_true, if_false] at hx
    simp only [List.mem_append, List.mem_cons, List.mem_reverse] at hx
    rcases hx with h | h | h
    · tauto
    · right; left; simp [h]
    · rcases ih x h with h2 | h2 | h2
      · simp at h2
      · right; left; simp [h2]
      · tauto
  | case5 =>
    rename_i run c tl hc hl ih
    intro x hx
    simp only [sub1Aux, hc, hl] at hx
    simp only [Bool.false_eq_true, if_false] at hx
    simp only [List.mem_append, List.mem_cons, List.mem_reverse] at hx
    rcases hx with h | h | h
    · tauto
    · right; left; simp [h]
    · rcases ih x h with h2 | h2 | h2
      · simp at h2
      · right; left; simp [h2]
      · tauto

theorem mem_sub2 : ∀ l x, x ∈ sub2 l → x ∈ l ∨ x = '_' := by
  intro l
  induction l using sub2.induct with
  | case1 =>
    intro x hx
    simp [sub2] at hx
  | case2 =>
    intro x hx
    simp only [sub2] at hx
    left; exact hx
  | case3 =>
    rename_i c d rest hcond ih
    intro x hx
    simp only [sub2, hcond, if_true] at hx
    rcases List.mem_cons.mp hx with h | h
    · left; simp [h]
    · rcases List.mem_cons.mp h with h | h
      · tauto
      · rcases List.mem_cons.mp h with h | h
        · left; simp [h]
        · rcases ih x h with h2 | h2
          · left; simp [h2]
          · tauto
  | case4 =>
    rename_i c d rest hcond ih
    intro x hx
    simp only [sub2] at hx
    rw [if_neg hcond] at hx
    rcases List.mem_cons.mp hx with h | h
    · left; simp [h]
    · rcases ih x h with h2 | h2
      · left; simp [h2]
      · tauto

theorem dashRepl_id : ∀ l, (∀ c ∈ l, c ≠ '-') → dashRepl l = l := by
  intro l h
  induction l with
  | nil => rfl
  | cons c tl ih =>
    have hc : c ≠ '-' := h c (by simp)
    simp only [dashRepl, List.map_cons, if_neg hc]
    have := ih (fun x hx => h x (by simp [hx]))
    simp only [dashRepl] at this
    rw [this]

/-- Claim C6 (counterexample): `inflect_column_name` is not the plain
two-pass snake_case normalization the claim describes: on the raw
segment name `"a_B"` the code first doubles the pre-existing underscore
at the case boundary and returns `"a__b"`, while the two described
passes alone return `"a_b"`. -/
theorem c6_counterexample : inflect_column_name "a_B" ≠ two_pass_snake "a_B" := by decide

/-- Claim C6 (amended): on raw segment names containing no underscore
and no hyphen, `inflect_column_name` is exactly the two-boundary-pass
snake_case normalization described by the spec; on other names the code
additionally doubles pre-existing underscores at case boundaries and
maps hyphens to underscores. -/
theorem c6_inflect_is_two_pass (name : String)
    (h : ∀ c ∈ name.data, c ≠ '_' ∧ c ≠ '-') :
    inflect_column_name name = two_pass_snake name := by
  unfold inflect_column_name two_pass_snake inflectL underscoreL
  rw [pre1Aux_no_underscore [] _ (fun c hc => (h c hc).1)]
  simp only [List.reverse_nil, List.nil_append]
  rw [pre2_no_underscore _ (fun c hc => (h c hc).1)]
  rw [dashRepl_id _ ?_]
  intro x hx
  rcases mem_sub2 _ x hx with h1 | h1
  · rcases mem_sub1Aux [] _ x h1 with h2 | h2 | h2
    · simp at h2
    · exact (h x h2).2
    · simp [h2]
  · simp [h1]

/-- Claim C6 (witness): the amended theorem applied at `"HTTPServer"`,
whose inflection is the two-pass normalization `"http_server"`. -/
theorem c6_witness :
    (∀ c ∈ ("HTTPServer" : String).data, c ≠ '_' ∧ c ≠ '-') ∧
    inflect_column_name "HTTPServer" = two_pass_snake "HTTPServer" :=
  ⟨by decide, c6_inflect_is_two_pass "HTTPServer" (by decide)⟩
/-! ## Claim C1: the truncation loop and the length bound -/

theorem reduceLoopGo_spec (sep : String) : ∀ todo done,
    (joinSep sep (reduceLoopGo sep done todo)).length < 63 ∨
    reduceLoopGo sep done todo = done ++ todo.map reduceSegment := by
  intro todo
  induction todo with
  | nil => intro done; right; simp [reduceLoopGo]
  | cons t ts ih =>
    intro done
    unfold reduceLoopGo
    split
    · rcases ih (done ++ [reduceSegment t]) with h | h
      · left; exact h
      · right; rw [h]; simp
    · left
      rename_i hlt
      omega

/-- Claim C1 (counterexample): the truncation loop of `flatten_key` gives
up once every segment has been reduced, so the 63-character bound fails:
a single segment of 64 digit characters has no lowercase letters to
strip, its reduction leaves it unchanged, and the returned identifier has
length 64. -/
theorem c1_counterexample :
    ¬ (flatten_key (String.mk (List.replicate 64 '1')) [] "__").length ≤ 63 := by decide

/-- Claim C1 (amended): the identifier `flatten_key` returns has length
below 63 whenever the reduction loop exits early; otherwise every segment
has been replaced by its reduced form and the result is the
separator-join of those reduced segments, whose length may exceed 63. -/
theorem c1_flatten_key_length (k : String) (parent_key : List String) (sep : String) :
    (flatten_key k parent_key sep).length < 63 ∨
    flatten_key k parent_key sep =
      joinSep sep (((parent_key ++ [k]).map inflect_column_name).map reduceSegment) := by
  have he : flatten_key k parent_key sep =
      joinSep sep (reduceLoopGo sep [] ((parent_key ++ [k]).map inflect_column_name)) := rfl
  rw [he]
  rcases reduceLoopGo_spec sep ((parent_key ++ [k]).map inflect_column_name) [] with h | h
  · left; exact h
  · right; rw [h]; simp

/-! ## Claim C8: identifier characters and idempotence -/

theorem pre1Aux_no_upper : ∀ run l, (∀ c ∈ l, isUp c = false) →
    pre1Aux run l = run.reverse ++ l := by
  intro run l
  induction run, l using pre1Aux.induct with
  | case1 run => intro _; simp [pre1Aux]
  | case2 =>
    rename_i run c hc
    intro h
    exact absurd (h c (by simp)) (by simp [hc])
  | case3 =>
    rename_i run c hc
    intro _
    simp [pre1Aux, hc]
  | case4 =>
    rename_i run c d hc ih
    intro h
    exact absurd (h c (by simp)) (by simp [hc])
  | case5 =>
    rename_i run c d hc ih
    intro h
    have hd : isUp d = false := h d (by simp)
    simp [pre1Aux, hc, hd]
  | case6 =>
    rename_i run c d e rest hc ih
    intro h
    exact absurd (h c (by simp)) (by simp [hc])
  | case7 =>
    rename_i run c d e rest hc hcond ih
    intro h
    exfalso
    simp only [Bool.and_eq_true] at hcond
    have := hcond.1.2
    have hd : isUp d = false := h d (by simp)
    simp [hd] at this
  | case8 =>
    rename_i run c d e rest hc hcond ih
    intro h
    have := ih (fun x hx => h x (by simp [hx]))
    simp only [pre1Aux, hc, if_false, hcond, this]
    simp

theorem pre2_no_upper : ∀ l, (∀ c ∈ l, isUp c = false) → pre2 l = l := by
  intro l
  induction l using pre2.induct with
  | case1 => intro _; rfl
  | case2 => intro _; rfl
  | case3 => intro _; rfl
  | case4 =>
    rename_i c d e rest hcond ih
    intro h
    exfalso
    simp only [Bool.and_eq_true] at hcond
    have := hcond.2
    have he : isUp e = false := h e (by simp)
    simp [he] at this
  | case5 =>
    rename_i c d e rest hcond ih
    intro h
    have := ih (fun x hx => h x (by simp [hx]))
    simp [pre2, hcond, this]

theorem sub1Aux_no_upper : ∀ run l, run = [] → (∀ c ∈ l, isUp c = false) →
    sub1Aux run l = l := by
  intro run l
  induction run, l using sub1Aux.induct with
  | case1 =>
    rename_i run
    intro hr _
    simp [sub1Aux, hr]
  | case2 =>
    rename_i run c tl hc ih
    intro _ h
    exact absurd (h c (by simp)) (by simp [hc])
  | case3 =>
    rename_i c tl hc hl r1 r2 rs ih
    intro hr _
    exact absurd hr (by simp)
  | case4 =>
    rename_i run c tl hc hl hne ih
    intro hr h
    subst hr
    have := ih rfl (fun x hx => h x (by simp [hx]))
    simp only [sub1Aux, hc, hl] at *
    simp [this]
  | case5 =>
    rename_i run c tl hc hl ih
    intro hr h
    subst hr
    have := ih rfl (fun x hx => h x (by simp [hx]))
    simp only [sub1Aux, hc, hl] at *
    simp [this]

theorem sub2_no_upper : ∀ l, (∀ c ∈ l, isUp c = false) → sub2 l = l := by
  intro l
  induction l using sub2.induct with
  | case1 => intro _; rfl
  | case2 => intro _; rfl
  | case3 =>
    rename_i c d rest hcond ih
    intro h
    exfalso
    simp only [Bool.and_eq_true] at hcond
    have := hcond.2
    have hd : isUp d = false := h d (by simp)
    simp [hd] at this
  | case4 =>
    rename_i c d rest hcond ih
    intro h
    have := ih (fun x hx => h x (by simp [hx]))
    simp [sub2, hcond, this]

theorem lowerL_id : ∀ l, (∀ c ∈ l, isUp c = false) → lowerL l = l := by
  intro l h
  induction l with
  | nil => rfl
  | cons c tl ih =>
    simp only [lowerL, List.map_cons]
    rw [lowerCh_id (h c (by simp))]
    have := ih (fun x hx => h x (by simp [hx]))
    simp only [lowerL] at this
    rw [this]

theorem dashRepl_no_dash : ∀ l x, x ∈ dashRepl l → x ≠ '-' := by
  intro l x hx
  simp only [dashRepl, List.mem_map] at hx
  obtain ⟨c, _, rfl⟩ := hx
  split
  · decide
  · assumption

theorem mem_lowerL : ∀ l x, x ∈ lowerL l → ∃ c ∈ l, x = lowerCh c := by
  intro l x hx
  simp only [lowerL, List.mem_map] at hx
  obtain ⟨c, hc, rfl⟩ := hx
  exact ⟨c, hc, rfl⟩

/-- Every character of an inflected identifier is non-uppercase and is
not a hyphen. -/
theorem inflectL_good : ∀ l x, x ∈ inflectL l → isUp x = false ∧ x ≠ '-' := by
  intro l x hx
  unfold inflectL underscoreL at hx
  obtain ⟨c, hc, rfl⟩ := mem_lowerL _ x hx
  exact ⟨isUp_lowerCh c, lowerCh_ne_dash (dashRepl_no_dash _ c hc)⟩

theorem mem_camelizeAux : ∀ l x, x ∈ camelizeAux l → (∃ d ∈ l, x = upperCh d) ∨ x ∈ l := by
  intro l
  induction l using camelizeAux.induct with
  | case1 => intro x hx; simp [camelizeAux] at hx
  | case2 => intro x hx; simp only [camelizeAux] at hx; right; exact hx
  | case3 =>
    rename_i d rest ih
    intro x hx
    simp only [camelizeAux, if_pos rfl] at hx
    rcases List.mem_cons.mp hx with h | h
    · left; exact ⟨d, by simp, h⟩
    · rcases ih x h with ⟨e, he, hx2⟩ | h2
      · left; exact ⟨e, by simp [he], hx2⟩
      · right; simp [h2]
  | case4 =>
    rename_i c d rest hc ih
    intro x hx
    simp only [camelizeAux] at hx
    rw [if_neg hc] at hx
    rcases List.mem_cons.mp hx with h | h
    · right; simp [h]
    · rcases ih x h with ⟨e, he, hx2⟩ | hm
      · left; exact ⟨e, by simp [he], hx2⟩
      · right; simp [hm]

theorem mem_camelizeL : ∀ l x, x ∈ camelizeL l → (∃ d ∈ l, x = upperCh d) ∨ x ∈ l := by
  intro l x hx
  match l with
  | [] => simp [camelizeL] at hx
  | c :: rest =>
    simp only [camelizeL] at hx
    rcases List.mem_cons.mp hx with h | h
    · left; exact ⟨c, by simp, h⟩
    · rcases mem_camelizeAux rest x h with ⟨d, hd, he⟩ | hm
      · left; exact ⟨d, by simp [hd], he⟩
      · right; simp [hm]

/-- A reduced segment of a hyphen-free segment is non-uppercase and
hyphen-free. -/
theorem reduceSegment_good (s : String) (h : ∀ c ∈ s.data, c ≠ '-') :
    ∀ x ∈ (reduceSegment s).data, isUp x = false ∧ x ≠ '-' := by
  intro x hx
  unfold reduceSegment at hx
  split at hx
  · obtain ⟨c, hc, rfl⟩ := mem_lowerL _ x hx
    have hcm : c ∈ camelizeL s.data := List.mem_of_mem_filter hc
    have hnd : c ≠ '-' := by
      rcases mem_camelizeL _ c hcm with ⟨d, hd, rfl⟩ | hm
      · exact upperCh_ne_dash (h d hd)
      · exact h c hm
    exact ⟨isUp_lowerCh c, lowerCh_ne_dash hnd⟩
  · obtain ⟨c, hc, rfl⟩ := mem_lowerL _ x hx
    have : c ∈ s.data := List.take_subset 3 s.data hc
    exact ⟨isUp_lowerCh c, lowerCh_ne_dash (h c this)⟩

/-- Characters of a separator-join of good strings are good. -/
theorem joinSep_good (P : Char → Prop) (sep : String) (hsep : ∀ c ∈ sep.data, P c) :
    ∀ l, (∀ s ∈ l, ∀ c ∈ (s : String).data, P c) →
    ∀ c ∈ (joinSep sep l).data, P c := by
  intro l
  induction l with
  | nil => intro _ c hc; simp [joinSep] at hc
  | cons s rest ih =>
    intro h c hc
    match rest with
    | [] => exact h s (by simp) c hc
    | r :: rs =>
      simp only [joinSep, String.data_append] at hc
      rcases List.mem_append.mp hc with h1 | h1
      · rcases List.mem_append.mp h1 with h2 | h2
        · exact h s (by simp) c h2
        · exact hsep c h2
      · exact ih (fun x hx => h x (by simp [hx])) c h1

theorem reduceLoopGo_good (sep : String) : ∀ todo done,
    (∀ s ∈ done, ∀ c ∈ (s : String).data, isUp c = false ∧ c ≠ '-') →
    (∀ s ∈ todo, ∀ c ∈ (s : String).data, isUp c = false ∧ c ≠ '-') →
    ∀ s ∈ reduceLoopGo sep done todo, ∀ c ∈ (s : String).data, isUp c = false ∧ c ≠ '-' := by
  intro todo
  induction todo with
  | nil => intro done hd _ s hs; exact hd s (by simpa [reduceLoopGo] using hs)
  | cons t ts ih =>
    intro done hd ht s hs
    unfold reduceLoopGo at hs
    split at hs
    · refine ih (done ++ [reduceSegment t]) ?_ (fun x hx => ht x (by simp [hx])) s hs
      intro x hx
      rcases List.mem_append.mp hx with h | h
      · exact hd x h
      · have hx1 : x = reduceSegment t := by simpa using h
        subst hx1
        exact reduceSegment_good t (fun c hc => (ht t (by simp) c hc).2)
    · rcases List.mem_append.mp hs with h | h
      · exact hd s h
      · exact ht s h

/-- Every character of a `flatten_key` identifier (with the fixed `'__'`
separator) is non-uppercase and hyphen-free. -/
theorem flatten_key_good (k : String) (parent_key : List String) :
    ∀ c ∈ (flatten_key k parent_key "__").data, isUp c = false ∧ c ≠ '-' := by
  have he : flatten_key k parent_key "__" =
      joinSep "__" (reduceLoopGo "__" [] ((parent_key ++ [k]).map inflect_column_name)) := rfl
  rw [he]
  refine joinSep_good (fun c => isUp c = false ∧ c ≠ '-') "__" (by decide) _ ?_
  apply reduceLoopGo_good
  · intro s hs; simp at hs
  · intro s hs
    simp only [List.mem_map] at hs
    obtain ⟨n, _, rfl⟩ := hs
    intro c hc
    exact inflectL_good n.data c hc

/-- Inflection is the identity on identifiers that have no uppercase
letter and no hyphen. -/
theorem inflect_column_name_id (s : String)
    (h : ∀ c ∈ s.data, isUp c = false ∧ c ≠ '-') :
    inflect_column_name s = s := by
  unfold inflect_column_name inflectL underscoreL
  rw [pre1Aux_no_upper [] _ (fun c hc => (h c hc).1)]
  simp only [List.reverse_nil, List.nil_append]
  rw [pre2_no_upper _ (fun c hc => (h c hc).1)]
  rw [sub1Aux_no_upper [] _ rfl (fun c hc => (h c hc).1)]
  rw [sub2_no_upper _ (fun c hc => (h c hc).1)]
  rw [dashRepl_id _ (fun c hc => (h c hc).2)]
  rw [lowerL_id _ (fun c hc => (h c hc).1)]

/-- Claim C8 (counterexample): `flatten_key` is not idempotent on paths
whose truncation exhausts all segments: the 22-segment path of `"abc"`
segments yields a 108-character identifier, and re-applying `flatten_key`
to that identifier collapses it to `"a"` followed by 21 underscores. -/
theorem c8_counterexample :
    flatten_key (flatten_key "abc" (List.replicate 21 "abc") "__") [] "__" ≠
      flatten_key "abc" (List.replicate 21 "abc") "__" := by decide

/-- Claim C8 (amended): `flatten_key` with the pipeline separator `'__'`
is idempotent on every path whose identifier ends up below the
63-character limit (in particular whenever truncation succeeds); on
paths whose reduced join still reaches 63 characters a second
application can shorten the identifier further. -/
theorem c8_flatten_key_idempotent (k : String) (parent_key : List String)
    (h : (flatten_key k parent_key "__").length < 63) :
    flatten_key (flatten_key k parent_key "__") [] "__" =
      flatten_key k parent_key "__" := by
  have hg := flatten_key_good k parent_key
  generalize hs : flatten_key k parent_key "__" = s at h hg ⊢
  have he : flatten_key s [] "__" =
      joinSep "__" (reduceLoopGo "__" [] [inflect_column_name s]) := rfl
  rw [he, inflect_column_name_id s hg]
  have hr : reduceLoopGo "__" [] [s] = [s] := by
    unfold reduceLoopGo
    rw [if_neg ?_]
    · simp
    · have hj : joinSep "__" ([] ++ [s]) = s := rfl
      rw [hj]
      omega
  rw [hr]
  rfl

/-- Claim C8 (witness): the amended theorem at the path `["someName"]`,
whose identifier `"some_name"` is below the limit and is a fixed point. -/
theorem c8_witness :
    (flatten_key "someName" [] "__").length < 63 ∧
    flatten_key (flatten_key "someName" [] "__") [] "__" = flatten_key "someName" [] "__" :=
  ⟨by decide, c8_flatten_key_idempotent "someName" [] (by decide)⟩

/-! ## String-order lemmas for the sorted flattened schema -/

theorem strLtL_trichotomy : ∀ a b : List Char, a = b ∨ strLtL a b = true ∨ strLtL b a = true := by
  intro a
  induction a with
  | nil =>
    intro b
    match b with
    | [] => left; rfl
    | c :: t => right; left; rfl
  | cons x xs ih =>
    intro b
    match b with
    | [] => right; right; rfl
    | y :: ys =>
      by_cases h1 : x.toNat < y.toNat
      · right; left; simp [strLtL, h1]
      · by_cases h2 : y.toNat < x.toNat
        · right; right; simp [strLtL, h2]
        · have he : x.toNat = y.toNat := by omega
          have hx : x = y := char_toNat_inj he
          subst hx
          rcases ih ys with h | h | h
          · left; rw [h]
          · right; left; simp [strLtL, h]
          · right; right; simp [strLtL, h]

theorem strLtL_irrefl : ∀ a : List Char, strLtL a a = false := by
  intro a
  induction a with
  | nil => rfl
  | cons x xs ih => simp [strLtL, ih]

theorem strLtL_trans : ∀ a b c : List Char,
    strLtL a b = true → strLtL b c = true → strLtL a c = true := by
  intro a
  induction a with
  | nil =>
    intro b c h1 h2
    match b, c with
    | [], [] => exact h2
    | [], _ :: _ => rfl
    | _ :: _, [] => simp [strLtL] at h2
    | _ :: _, _ :: _ => rfl
  | cons x xs ih =>
    intro b c h1 h2
    match b, c with
    | [], _ => simp [strLtL] at h1
    | _ :: _, [] => simp [strLtL] at h2
    | y :: ys, z :: zs =>
      simp only [strLtL, Bool.or_eq_true, Bool.and_eq_true, decide_eq_true_eq] at h1 h2 ⊢
      rcases h1 with h1 | ⟨h1e, h1r⟩
      · rcases h2 with h2 | ⟨h2e, h2r⟩
        · left; omega
        · left; omega
      · rcases h2 with h2 | ⟨h2e, h2r⟩
        · left; omega
        · right; exact ⟨by omega, ih ys zs h1r h2r⟩

theorem strLt_irrefl (a : String) : strLt a a = false := strLtL_irrefl a.data

theorem strLt_trans {a b c : String} (h1 : strLt a b = true) (h2 : strLt b c = true) :
    strLt a c = true := strLtL_trans a.data b.data c.data h1 h2

theorem strLt_asymm {a b : String} (h : strLt a b = true) : strLt b a = false := by
  by_contra hc
  simp only [Bool.not_eq_false] at hc
  have := strLt_trans h hc
  rw [strLt_irrefl] at this
  exact Bool.false_ne_true this

theorem str_data_inj {a b : String} (h : a.data = b.data) : a = b := by
  cases a
  cases b
  congr 1

theorem strLe_total (a b : String) : strLe a b = true ∨ strLe b a = true := by
  rcases strLtL_trichotomy a.data b.data with h | h | h
  · left; simp [strLe, str_data_inj h]
  · left; simp [strLe, strLt, h]
  · right; simp [strLe, strLt, h]

theorem strLe_of_not_le {a b : String} (h : ¬ strLe a b = true) : strLe b a = true := by
  rcases strLe_total a b with h1 | h1
  · exact absurd h1 h
  · exact h1

theorem strLt_of_le_of_ne {a b : String} (h1 : strLe a b = true) (h2 : a ≠ b) :
    strLt a b = true := by
  simp only [strLe, Bool.or_eq_true, decide_eq_true_eq] at h1
  rcases h1 with h1 | h1
  · exact h1
  · exact absurd h1 h2

/-! ## Sortedness of `sortItems` and distinctness from the duplicate
check -/

theorem insertSorted_head_cases (p : String × PVal) : ∀ l : List (String × PVal),
    (insertSorted p l).head? = some p ∨ (insertSorted p l).head? = l.head? := by
  intro l
  match l with
  | [] => left; rfl
  | q :: rest =>
    unfold insertSorted
    split
    · left; rfl
    · right; rfl

theorem insertSorted_chain (p : String × PVal) :
    ∀ l, List.Chain' (fun a b : String × PVal => strLe a.1 b.1 = true) l →
    List.Chain' (fun a b : String × PVal => strLe a.1 b.1 = true) (insertSorted p l) := by
  intro l
  induction l with
  | nil => intro _; simp [insertSorted]
  | cons q rest ih =>
    intro h
    unfold insertSorted
    split
    · rename_i hle
      exact List.Chain'.cons hle h
    · rename_i hnle
      rw [List.chain'_cons']
      constructor
      · intro b hb
        rcases insertSorted_head_cases p rest with hh | hh
        · rw [hh] at hb
          simp at hb
          subst hb
          exact strLe_of_not_le hnle
        · rw [hh] at hb
          exact (List.chain'_cons'.mp h).1 b hb
      · exact ih (List.chain'_cons'.mp h).2

theorem sortItems_chain : ∀ l, List.Chain'
    (fun a b : String × PVal => strLe a.1 b.1 = true) (sortItems l) := by
  intro l
  induction l with
  | nil => simp [sortItems]
  | cons p rest ih => exact insertSorted_chain p _ ih

theorem insertSorted_perm (p : String × PVal) :
    ∀ l, List.Perm (insertSorted p l) (p :: l) := by
  intro l
  induction l with
  | nil => rfl
  | cons q rest ih =>
    unfold insertSorted
    split
    · rfl
    · exact (List.Perm.cons q ih).trans (List.Perm.swap p q rest)

theorem sortItems_perm : ∀ l, List.Perm (sortItems l) l := by
  intro l
  induction l with
  | nil => rfl
  | cons p rest ih => exact (insertSorted_perm p _).trans (List.Perm.cons p ih)

theorem hasAdjDupKey_false_ne : ∀ l, hasAdjDupKey l = false →
    List.Chain' (fun a b : String × PVal => a.1 ≠ b.1) l := by
  intro l
  induction l with
  | nil => intro _; simp
  | cons p rest ih =>
    intro h
    match rest with
    | [] => simp
    | q :: rest2 =>
      have hh : ¬ p.1 = q.1 ∧ hasAdjDupKey (q :: rest2) = false := by
        have hp : hasAdjDupKey (p :: q :: rest2) = (decide (p.1 = q.1) || hasAdjDupKey (q :: rest2)) := rfl
        rw [hp] at h
        simp only [Bool.or_eq_false_iff, decide_eq_false_iff_not] at h
        exact h
      exact List.Chain'.cons hh.1 (ih hh.2)

theorem chain'_and {R S : (String × PVal) → (String × PVal) → Prop} :
    ∀ l, List.Chain' R l → List.Chain' S l →
    List.Chain' (fun a b => R a b ∧ S a b) l := by
  intro l
  induction l with
  | nil => intro _ _; simp
  | cons p rest ih =>
    intro h1 h2
    match rest with
    | [] => simp
    | q :: rest2 =>
      rw [List.chain'_cons] at h1 h2 ⊢
      exact ⟨⟨h1.1, h2.1⟩, ih h1.2 h2.2⟩

/-- A sorted item list that passes the adjacent-duplicate check is
strictly ascending in its keys. -/
theorem sorted_nodup_strict (l : List (String × PVal))
    (hs : List.Chain' (fun a b : String × PVal => strLe a.1 b.1 = true) l)
    (hd : hasAdjDupKey l = false) :
    List.Chain' (fun a b : String × PVal => strLt a.1 b.1 = true) l := by
  have := chain'_and l hs (hasAdjDupKey_false_ne l hd)
  exact this.imp fun a b h => strLt_of_le_of_ne h.1 h.2

theorem chain'_strLt_head : ∀ (rest : List (String × PVal)) (p : String × PVal),
    List.Chain' (fun a b : String × PVal => strLt a.1 b.1 = true) (p :: rest) →
    ∀ q ∈ rest, strLt p.1 q.1 = true := by
  intro rest
  induction rest with
  | nil => intro p _ q hq; simp at hq
  | cons q rest2 ih =>
    intro p h x hx
    rw [List.chain'_cons] at h
    rcases List.mem_cons.mp hx with hx | hx
    · subst hx; exact h.1
    · exact strLt_trans h.1 (ih q h.2 x hx)

theorem chain'_strLt_pairwise : ∀ l : List (String × PVal),
    List.Chain' (fun a b : String × PVal => strLt a.1 b.1 = true) l →
    List.Pairwise (fun a b : String × PVal => strLt a.1 b.1 = true) l := by
  intro l
  induction l with
  | nil => intro _; simp
  | cons p rest ih =>
    intro h
    refine List.Pairwise.cons (chain'_strLt_head rest p h) (ih ?_)
    exact (List.chain'_cons'.mp h).2

/-- Keys of a strictly ascending item list are distinct. -/
theorem chain'_strLt_nodup (l : List (String × PVal))
    (h : List.Chain' (fun a b : String × PVal => strLt a.1 b.1 = true) l) :
    (l.map Prod.fst).Nodup := by
  have hp := chain'_strLt_pairwise l h
  unfold List.Nodup
  rw [List.pairwise_map]
  refine hp.imp ?_
  intro a b hab heq
  rw [heq] at hab
  rw [strLt_irrefl] at hab
  exact Bool.false_ne_true hab

/-! ## The Python dict constructor on distinct keys -/

theorem pyDictInsert_not_mem (acc : List (String × PVal)) (k : String) (v : PVal)
    (h : ∀ p ∈ acc, p.1 ≠ k) : pyDictInsert acc k v = acc ++ [(k, v)] := by
  unfold pyDictInsert
  rw [if_neg]
  simp only [List.any_eq_true, decide_eq_true_eq, not_exists]
  intro p hp
  exact h p hp.1 hp.2

theorem pyDict_go_nodup : ∀ (l acc : List (String × PVal)),
    ((acc ++ l).map Prod.fst).Nodup →
    List.foldl (fun acc p => pyDictInsert acc p.1 p.2) acc l = acc ++ l := by
  intro l
  induction l with
  | nil => intro acc _; simp
  | cons p rest ih =>
    intro acc h
    obtain ⟨k, v⟩ := p
    have hne : ∀ q ∈ acc, q.1 ≠ k := by
      intro q hq he
      rw [List.map_append] at h
      have hdisj := (List.nodup_append.mp h).2.2
      have h1 : q.1 ∈ List.map Prod.fst acc := List.mem_map.mpr ⟨q, hq, rfl⟩
      have h2 : q.1 ∈ List.map Prod.fst ((k, v) :: rest) := by rw [he]; simp
      exact hdisj h1 h2
    have hstep : pyDictInsert acc k v = acc ++ [(k, v)] := pyDictInsert_not_mem acc k v hne
    simp only [List.foldl_cons, hstep]
    have := ih (acc ++ [(k, v)]) (by simpa using h)
    rw [this]
    simp

/-- `dict(items)` is the identity on item lists with pairwise distinct
keys. -/
theorem pyDict_nodup (l : List (String × PVal)) (h : (l.map Prod.fst).Nodup) :
    pyDict l = l := by
  have := pyDict_go_nodup l [] (by simpa using h)
  simpa [pyDict] using this

/-- Duplicate identifiers among collected items always trip the
adjacent-duplicate check after sorting. -/
theorem dup_hasAdjDup (items : List (String × PVal))
    (h : ¬ (items.map Prod.fst).Nodup) :
    hasAdjDupKey (sortItems items) = true := by
  by_contra hc
  simp only [Bool.not_eq_true] at hc
  have hlt := sorted_nodup_strict _ (sortItems_chain items) hc
  have hnd := chain'_strLt_nodup _ hlt
  have hperm : List.Perm ((sortItems items).map Prod.fst) (items.map Prod.fst) :=
    (sortItems_perm items).map Prod.fst
  exact h (hperm.nodup_iff.mp hnd)

/-- Claim C2: on success `flatten_schema` returns its mapping strictly
ascending by flat identifier — keys pairwise distinct and sorted — and
whenever the items collected from the `properties` walk contain two
entries with the same flattened identifier, the call raises `ValueError`
(the spec's `SchemaError`); duplicates are never silently merged. -/
theorem c2_flatten_schema_sorted_and_dup :
    (∀ d parent_key sep r, flatten_schema d parent_key sep = .ok r →
      List.Chain' (fun a b : String × PVal => strLt a.1 b.1 = true) r.1) ∧
    (∀ fuel d props parent_key sep items props2,
      PVal.isDict d = true →
      d.dGet "properties" = some props →
      PVal.isDict props = true →
      flattenL fuel props parent_key sep = .ok (items, props2) →
      ¬ (items.map Prod.fst).Nodup →
      flattenS (fuel + 1) d parent_key sep = .error .valueError) := by
  constructor
  · intro d parent_key sep r h
    unfold flatten_schema at h
    generalize hf : d.pySize = fuel at h
    match fuel with
    | 0 => simp [flattenS] at h
    | fuel + 1 =>
      simp only [flattenS] at h
      split at h
      · split at h
        · simp at h
        · rename_i props hget
          split at h
          · cases hfl : flattenL fuel props parent_key sep with
            | error e => rw [hfl] at h; simp [Bind.bind, Except.bind] at h
            | ok pr =>
              obtain ⟨items, props2⟩ := pr
              rw [hfl] at h
              simp only [Bind.bind, Except.bind] at h
              split at h
              · simp at h
              · rename_i hdup
                simp only [Except.ok.injEq] at h
                have hlt := sorted_nodup_strict _ (sortItems_chain items) (by simpa using hdup)
                have h1 : r.1 = pyDict (sortItems items) := by rw [← h]
                rw [h1, pyDict_nodup _ (chain'_strLt_nodup _ hlt)]
                exact hlt
          · simp at h
      · simp at h
  · intro fuel d props parent_key sep items props2 hd hget hpd hfl hdup
    simp only [flattenS, hd, hget, hpd, if_true, hfl]
    simp only [Bind.bind, Except.bind]
    rw [if_pos (dup_hasAdjDup items hdup)]

/-- Claim C2 (witness): the first half at a two-leaf schema whose
identifiers sort into ascending order, the second half at a schema whose
keys `"aB"` and `"a_b"` collide after inflection. -/
theorem c2_witness :
    List.Chain' (fun a b : String × PVal => strLt a.1 b.1 = true)
      [("a", pDictV [("type", .str "string")]), ("b", pDictV [("type", .str "integer")])] ∧
    flattenS 6 (pDictV [("properties", pDictV [("aB", pDictV [("type", .str "integer")]),
        ("a_b", pDictV [("type", .str "string")])])]) [] "__" = .error .valueError := by
  constructor
  · exact c2_flatten_schema_sorted_and_dup.1
      (pDictV [("properties", pDictV [("b", pDictV [("type", .str "integer")]),
        ("a", pDictV [("type", .str "string")])])]) [] "__"
      ([("a", pDictV [("type", .str "string")]), ("b", pDictV [("type", .str "integer")])],
       pDictV [("properties", pDictV [("b", pDictV [("type", .str "integer")]),
        ("a", pDictV [("type", .str "string")])])])
      (by decide)
  · exact c2_flatten_schema_sorted_and_dup.2 5
      (pDictV [("properties", pDictV [("aB", pDictV [("type", .str "integer")]),
        ("a_b", pDictV [("type", .str "string")])])])
      (pDictV [("aB", pDictV [("type", .str "integer")]), ("a_b", pDictV [("type", .str "string")])])
      [] "__"
      [("a_b", pDictV [("type", .str "integer")]), ("a_b", pDictV [("type", .str "string")])]
      (pDictV [("aB", pDictV [("type", .str "integer")]), ("a_b", pDictV [("type", .str "string")])])
      (by decide) (by decide) (by decide) (by decide) (by decide)

/-! ## Claim C10: record flattening silently merges colliding keys -/

/-- Claim C10: on a record with two distinct keys whose paths flatten to
the same identifier, `flatten_record` raises no error and returns a
single entry for that identifier holding the value processed last — in
contrast to `flatten_schema`, which raises on the same collision. -/
theorem c10_flatten_record_last_wins (k1 k2 : String) (v1 v2 : PVal)
    (_hk : k1 ≠ k2)
    (hcol : flatten_key k1 [] "__" = flatten_key k2 [] "__")
    (h1d : v1.isDict = false) (h1l : v1.isList = false)
    (h2d : v2.isDict = false) (h2l : v2.isList = false) :
    flatten_record (pDictV [(k1, v1), (k2, v2)]) [] "__" =
      .ok [(flatten_key k1 [] "__", v2)] := by
  have h : flattenRecItems (pDictV [(k1, v1), (k2, v2)]) [] "__" =
      .ok [(flatten_key k1 [] "__", v1), (flatten_key k2 [] "__", v2)] := by
    simp [pDictV, flattenRecItems, h1d, h1l, h2d, h2l, Bind.bind, Except.bind]
  unfold flatten_record
  rw [h]
  simp only [Bind.bind, Except.bind, Except.ok.injEq]
  rw [← hcol]
  simp [pyDict, pyDictInsert]

/-- Claim C10 (witness): the keys `"aB"` and `"a_b"` both flatten to
`"a_b"`; the record keeps only the last value. -/
theorem c10_witness :
    "aB" ≠ "a_b" ∧
    flatten_key "aB" [] "__" = flatten_key "a_b" [] "__" ∧
    flatten_record (pDictV [("aB", .int 1), ("a_b", .int 2)]) [] "__" =
      .ok [(flatten_key "aB" [] "__", .int 2)] :=
  ⟨by decide, by decide,
   c10_flatten_record_last_wins "aB" "a_b" (.int 1) (.int 2)
     (by decide) (by decide) (by decide) (by decide) (by decide) (by decide)⟩

/-! ## Claim C9: flatten_schema and in-place mutation -/

theorem dSet_same : ∀ (d : PVal) (key : String) (v : PVal),
    d.dGet key = some v → d.dSet key v = d := by
  intro d
  induction d with
  | dcons k v0 tl ihv ihtl =>
    intro key v h
    by_cases hk : k = key
    · subst hk
      simp [PVal.dGet] at h
      simp [PVal.dSet, h]
    · simp only [PVal.dGet, if_neg hk] at h
      simp [PVal.dSet, hk, ihtl key v h]
  | dnil => intro key v h; simp [PVal.dGet] at h
  | lcons hd tl ih1 ih2 => intro key v h; simp [PVal.dGet] at h
  | str s => intro key v h; simp [PVal.dGet] at h
  | int n => intro key v h; simp [PVal.dGet] at h
  | bool b => intro key v h; simp [PVal.dGet] at h
  | null => intro key v h; simp [PVal.dGet] at h
  | lnil => intro key v h; simp [PVal.dGet] at h

theorem noAnyOf_dGet : ∀ (d : PVal) (key : String) (v : PVal),
    noAnyOf d = true → d.dGet key = some v → noAnyOf v = true := by
  intro d
  induction d with
  | dcons k v0 tl ihv ihtl =>
    intro key v hno h
    simp only [noAnyOf, Bool.and_eq_true] at hno
    by_cases hk : k = key
    · subst hk
      simp [PVal.dGet] at h
      rw [← h]
      exact hno.1.2
    · simp only [PVal.dGet, if_neg hk] at h
      exact ihtl key v hno.2 h
  | dnil => intro key v _ h; simp [PVal.dGet] at h
  | lcons hd tl ih1 ih2 => intro key v _ h; simp [PVal.dGet] at h
  | str s => intro key v _ h; simp [PVal.dGet] at h
  | int n => intro key v _ h; simp [PVal.dGet] at h
  | bool b => intro key v _ h; simp [PVal.dGet] at h
  | null => intro key v _ h; simp [PVal.dGet] at h
  | lnil => intro key v _ h; simp [PVal.dGet] at h

theorem noAnyOf_hasKey : ∀ v : PVal, noAnyOf v = true → v.hasKey "anyOf" = false := by
  intro v
  induction v with
  | dcons k v0 tl ihv ihtl =>
    intro hno
    simp only [noAnyOf, Bool.and_eq_true] at hno
    have hk : k ≠ "anyOf" := by simpa using hno.1.1
    simp only [PVal.hasKey, PVal.dGet, if_neg hk]
    exact ihtl hno.2
  | dnil => intro _; rfl
  | lcons hd tl ih1 ih2 => intro _; rfl
  | str s => intro _; rfl
  | int n => intro _; rfl
  | bool b => intro _; rfl
  | null => intro _; rfl
  | lnil => intro _; rfl

/-- On trees without nullable-union nodes every flattening function
returns its input tree unchanged. -/
theorem flatten_mut_id : ∀ fuel : Nat,
    (∀ d parent_key sep items d2, noAnyOf d = true →
      flattenS fuel d parent_key sep = .ok (items, d2) → d2 = d) ∧
    (∀ entries parent_key sep items e2, noAnyOf entries = true →
      flattenL fuel entries parent_key sep = .ok (items, e2) → e2 = entries) ∧
    (∀ k v parent_key sep items v2, noAnyOf v = true →
      handleValue fuel k v parent_key sep = .ok (items, v2) → v2 = v) := by
  intro fuel
  induction fuel with
  | zero =>
    refine ⟨?_, ?_, ?_⟩
    · intro d parent_key sep items d2 hno h
      simp [flattenS] at h
    · intro e parent_key sep items e2 hno h
      simp [flattenL] at h
    · intro k v parent_key sep items v2 hno h
      simp [handleValue] at h
  | succ f ih =>
    obtain ⟨ihS, ihL, ihH⟩ := ih
    refine ⟨?_, ?_, ?_⟩
    · intro d parent_key sep items d2 hno h
      simp only [flattenS] at h
      split at h
      · split at h
        · simp at h
        · rename_i props hget
          split at h
          · cases hfl : flattenL f props parent_key sep with
            | error e => rw [hfl] at h; simp [Bind.bind, Except.bind] at h
            | ok pr =>
              obtain ⟨its, props2⟩ := pr
              rw [hfl] at h
              simp only [Bind.bind, Except.bind] at h
              split at h
              · simp at h
              · simp only [Except.ok.injEq, Prod.mk.injEq] at h
                have hp2 : props2 = props :=
                  ihL props parent_key sep its props2 (noAnyOf_dGet d "properties" props hno hget) hfl
                rw [← h.2, hp2]
                exact dSet_same d "properties" props hget
          · simp at h
      · simp at h
    · intro entries parent_key sep items e2 hno h
      match entries with
      | .dnil => simp only [flattenL, Except.ok.injEq, Prod.mk.injEq] at h; exact h.2.symm
      | .dcons k v tl =>
        simp only [flattenL] at h
        cases hhv : handleValue f k v parent_key sep with
        | error e => rw [hhv] at h; simp [Bind.bind, Except.bind] at h
        | ok pr1 =>
          obtain ⟨its1, v2⟩ := pr1
          rw [hhv] at h
          cases hfl : flattenL f tl parent_key sep with
          | error e => rw [hfl] at h; simp [Bind.bind, Except.bind] at h
          | ok pr2 =>
            obtain ⟨its2, tl2⟩ := pr2
            rw [hfl] at h
            simp only [Bind.bind, Except.bind, Except.ok.injEq, Prod.mk.injEq] at h
            simp only [noAnyOf, Bool.and_eq_true] at hno
            have hv2 : v2 = v := ihH k v parent_key sep its1 v2 hno.1.2 hhv
            have htl2 : tl2 = tl := ihL tl parent_key sep its2 tl2 hno.2 hfl
            rw [← h.2, hv2, htl2]
      | .str s => simp [flattenL] at h
      | .int n => simp [flattenL] at h
      | .bool b => simp [flattenL] at h
      | .null => simp [flattenL] at h
      | .lnil => simp [flattenL] at h
      | .lcons a b => simp [flattenL] at h
    · intro k v parent_key sep items v2 hno h
      simp only [handleValue] at h
      split at h
      · simp only [Except.ok.injEq, Prod.mk.injEq] at h; exact h.2.symm
      · split at h
        · split at h
          · rename_i t hget
            cases hm : pyMemStr "object" t with
            | error e => rw [hm] at h; simp [Bind.bind, Except.bind] at h
            | ok b =>
              rw [hm] at h
              simp only [Bind.bind, Except.bind] at h
              split at h
              · exact ihS v (parent_key ++ [k]) sep items v2 hno h
              · simp only [Except.ok.injEq, Prod.mk.injEq] at h; exact h.2.symm
          · rw [noAnyOf_hasKey v hno] at h
            simp at h
        · simp at h

/-- Claim C9 (counterexample): `flatten_schema` is not pure — on a
schema with a nullable-union property whose accepted branch has a
non-list type, the in-place normalization of the branch's type field
mutates the input tree, which comes back changed. -/
theorem c9_counterexample :
    flatten_schema (pDictV [("properties", pDictV [("a",
        pDictV [("anyOf", pListV [NULL_TYPE, pDictV [("type", .str "integer")]])])])]) [] "__" =
      .ok ([("a", pDictV [("type", pListV [.str "null", .str "integer"])])],
        pDictV [("properties", pDictV [("a",
          pDictV [("anyOf", pListV [NULL_TYPE,
            pDictV [("type", pListV [.str "null", .str "integer"])]])])])]) ∧
    pDictV [("properties", pDictV [("a",
        pDictV [("anyOf", pListV [NULL_TYPE,
          pDictV [("type", pListV [.str "null", .str "integer"])]])])])] ≠
      pDictV [("properties", pDictV [("a",
        pDictV [("anyOf", pListV [NULL_TYPE, pDictV [("type", .str "integer")]])])])] := by
  constructor
  · decide
  · decide

/-- Claim C9 (amended): `flatten_schema` computes its result without
side effects on its argument except for the in-place normalization of
nullable-union branches: on every schema tree containing no `anyOf` node
it returns the input tree unchanged. -/
theorem c9_flatten_schema_pure (d : PVal) (parent_key : List String) (sep : String)
    (items : List (String × PVal)) (d2 : PVal)
    (hno : noAnyOf d = true)
    (h : flatten_schema d parent_key sep = .ok (items, d2)) : d2 = d :=
  (flatten_mut_id d.pySize).1 d parent_key sep items d2 hno h

/-- Claim C9 (witness): the amended theorem at a one-leaf schema without
nullable unions, whose tree comes back untouched. -/
theorem c9_witness :
    noAnyOf (pDictV [("properties", pDictV [("a", pDictV [("type", .str "integer")])])]) = true ∧
    pDictV [("properties", pDictV [("a", pDictV [("type", .str "integer")])])] =
      pDictV [("properties", pDictV [("a", pDictV [("type", .str "integer")])])] :=
  ⟨by decide,
   c9_flatten_schema_pure
     (pDictV [("properties", pDictV [("a", pDictV [("type", .str "integer")])])]) [] "__"
     [("a", pDictV [("type", .str "integer")])]
     (pDictV [("properties", pDictV [("a", pDictV [("type", .str "integer")])])])
     (by decide) (by decide)⟩

/-! ## Claim C4: the nullable-union (`anyOf`) branch of the flattener -/

theorem toList_pListV : ∀ l : List PVal, (pListV l).toList = l := by
  intro l
  induction l with
  | nil => rfl
  | cons v rest ih => simp [pListV, PVal.toList, ih]

theorem pyMemVal_pListV (x : PVal) (l : List PVal) :
    pyMemVal x (pListV l) = .ok (l.contains x) := by
  match l with
  | [] => rfl
  | v :: rest =>
    show Except.ok ((PVal.lcons v (pListV rest)).toList.contains x) = _
    rw [show (PVal.lcons v (pListV rest)).toList = v :: rest from by
      simp [PVal.toList, toList_pListV]]

theorem pyLen_pListV : ∀ l : List PVal, pyLen (pListV l) = .ok l.length := by
  intro l
  induction l with
  | nil => rfl
  | cons v rest ih => simp [pListV, pyLen, ih, Bind.bind, Except.bind]

theorem contains_iff_mem (l : List PVal) (x : PVal) : l.contains x = true ↔ x ∈ l :=
  List.elem_iff

/-- The `anyOf` case of the loop body, as one reduced expression. -/
theorem handleValue_anyOf_red (fuel : Nat) (k : String) (parent_key : List String)
    (sep : String) (branches : List PVal) :
    handleValue (fuel + 1) k (.dcons "anyOf" (pListV branches) .dnil) parent_key sep =
      (if !(branches.contains NULL_TYPE) then .error .valueError
       else if 2 < branches.length then .error .valueError
       else
         match branches.filter (fun b => b ≠ NULL_TYPE) with
         | [] => .error .indexError
         | property :: _ =>
           match property.dGet "type" with
           | some t =>
             if t.isList then
               .ok ([(flatten_key k parent_key sep, property)],
                    .dcons "anyOf" (pListV branches) .dnil)
             else
               .ok ([(flatten_key k parent_key sep,
                       property.dSet "type" (pListV [.str "null", t]))],
                    .dcons "anyOf"
                      (replaceFirstNonNull (pListV branches)
                        (property.dSet "type" (pListV [.str "null", t]))) .dnil)
           | none => if property.isDict then .error .keyError else .error .typeError) := by
  have hgt : (PVal.dcons "anyOf" (pListV branches) PVal.dnil).dGet "type" = none := by
    simp only [PVal.dGet]
    rw [if_neg (by decide)]
  have hga : (PVal.dcons "anyOf" (pListV branches) PVal.dnil).hasKey "anyOf" = true := by
    simp [PVal.hasKey, PVal.dGet]
  simp only [handleValue, pyFalsy, PVal.isDict, hgt, hga, PVal.firstVal,
    pyMemVal_pListV, pyLen_pListV, toList_pListV, Bind.bind, Except.bind,
    Bool.false_eq_true, if_false, if_true, PVal.setFirstVal]

/-- Claim C4 (counterexample): the claim's failure condition is wrong:
on the branch list `[NULL_TYPE, NULL_TYPE, {'type': 'integer'}]` the null
marker is present and exactly one non-null branch exists — the claim
says the node is accepted — yet the code raises `ValueError`, because it
tests the raw length of the branch list (`> 2`), not the number of
non-null branches. -/
theorem c4_counterexample :
    NULL_TYPE ∈ [NULL_TYPE, NULL_TYPE, pDictV [("type", .str "integer")]] ∧
    ([NULL_TYPE, NULL_TYPE, pDictV [("type", .str "integer")]].filter
       (fun b => b ≠ NULL_TYPE)).length = 1 ∧
    handleValue 3 "a"
      (.dcons "anyOf" (pListV [NULL_TYPE, NULL_TYPE, pDictV [("type", .str "integer")]]) .dnil)
      [] "__" = .error .valueError := by
  refine ⟨by decide, by decide, by decide⟩

/-- Claim C4 (amended): for a property node of the shape
`{'anyOf': branches}`, the flattener raises `ValueError` exactly when the
null marker is absent from the branch list or the list has more than two
elements; when the check passes it raises `IndexError` if no non-null
branch remains, and otherwise emits the first non-null branch as the
leaf, wrapping that branch's non-list type field in place into
`['null', <type>]` and leaving an already-list type unchanged. -/
theorem c4_anyOf_handling (fuel : Nat) (k : String) (parent_key : List String)
    (sep : String) (branches : List PVal) :
    (NULL_TYPE ∉ branches ∨ 2 < branches.length →
      handleValue (fuel + 1) k (.dcons "anyOf" (pListV branches) .dnil) parent_key sep =
        .error .valueError) ∧
    (NULL_TYPE ∈ branches → branches.length ≤ 2 →
      (branches.filter (fun b => b ≠ NULL_TYPE) = [] →
        handleValue (fuel + 1) k (.dcons "anyOf" (pListV branches) .dnil) parent_key sep =
          .error .indexError) ∧
      (∀ b bs t, branches.filter (fun b => b ≠ NULL_TYPE) = b :: bs →
        b.dGet "type" = some t →
        (t.isList = false →
          handleValue (fuel + 1) k (.dcons "anyOf" (pListV branches) .dnil) parent_key sep =
            .ok ([(flatten_key k parent_key sep, b.dSet "type" (pListV [.str "null", t]))],
                 .dcons "anyOf"
                   (replaceFirstNonNull (pListV branches)
                     (b.dSet "type" (pListV [.str "null", t]))) .dnil)) ∧
        (t.isList = true →
          handleValue (fuel + 1) k (.dcons "anyOf" (pListV branches) .dnil) parent_key sep =
            .ok ([(flatten_key k parent_key sep, b)],
                 .dcons "anyOf" (pListV branches) .dnil)))) := by
  rw [handleValue_anyOf_red]
  constructor
  · intro hcond
    rcases hcond with h | h
    · have hc : branches.contains NULL_TYPE = false := by
        rw [← Bool.not_eq_true]
        intro hb
        exact h ((contains_iff_mem _ _).mp hb)
      rw [hc]
      rfl
    · by_cases hc : branches.contains NULL_TYPE = true
      · rw [hc, if_neg (by simp), if_pos h]
      · rw [Bool.not_eq_true] at hc
        rw [hc]
        rfl
  · intro hmem hlen
    have hc : branches.contains NULL_TYPE = true := (contains_iff_mem _ _).mpr hmem
    rw [hc, if_neg (by simp), if_neg (by omega)]
    constructor
    · intro hfil
      rw [hfil]
    · intro b bs t hfil hbt
      rw [hfil]
      constructor
      · intro hl
        simp only [hbt, hl, Bool.false_eq_true, if_false]
      · intro hl
        simp only [hbt, hl, if_true]

/-- Claim C4 (witness): the amended theorem at the canonical nullable
union `[NULL_TYPE, {'type': 'integer'}]`, whose accepted branch is
normalized in place to the list type `['null', 'integer']`. -/
theorem c4_witness :
    NULL_TYPE ∈ [NULL_TYPE, pDictV [("type", .str "integer")]] ∧
    handleValue 3 "a"
      (.dcons "anyOf" (pListV [NULL_TYPE, pDictV [("type", .str "integer")]]) .dnil) [] "__" =
      .ok ([(flatten_key "a" [] "__",
             (pDictV [("type", .str "integer")]).dSet "type" (pListV [.str "null", .str "integer"]))],
           .dcons "anyOf"
             (replaceFirstNonNull (pListV [NULL_TYPE, pDictV [("type", .str "integer")]])
               ((pDictV [("type", .str "integer")]).dSet "type" (pListV [.str "null", .str "integer"]))) .dnil) :=
  ⟨by decide,
   (((c4_anyOf_handling 2 "a" [] "__" [NULL_TYPE, pDictV [("type", .str "integer")]]).2
      (by decide) (by decide)).2 (pDictV [("type", .str "integer")]) [] (.str "integer")
      (by decide) (by decide)).1 (by decide)⟩
/-- On membership-safe values (strings, lists, dicts) Python membership
succeeds and agrees with the pure membership predicate. -/
theorem pyMemStr_safe (needle : String) (v : PVal) (hm : memSafe v = true) :
    pyMemStr needle v = .ok (pyMemPure needle v) := by
  cases v <;> first | rfl | simp [memSafe] at hm

/-- Claim C5 (counterexample): the type mapper is not total over
descriptors.  A descriptor lacking a `type` key raises `KeyError`
instead of falling back to variable-length text, and a descriptor whose
`type` is a non-container (here the integer `5`) raises `TypeError`;
the spec's table (`mapTypeSpec`) would return the fallback text type in
both cases. -/
theorem c5_counterexample :
    column_type .dnil = .error .keyError ∧
    column_type (pDictV [("type", .int 5)]) = .error .typeError ∧
    mapTypeSpec .dnil = "character varying" ∧
    mapTypeSpec (pDictV [("type", .int 5)]) = "character varying" := by
  decide

/-- Claim C5 (amended): on descriptors that do carry a `type` key bound
to a membership-safe value (a string, list or dict), `column_type`
succeeds, agrees with the spec's pure mapping table `mapTypeSpec`
checked in the fixed order object/array, date-time format, number,
integer-and-string, integer, boolean, and always lands in the
enumerated set of storage types.  Totality fails outside this shape:
see the counterexample. -/
theorem c5_column_type_table (p t : PVal)
    (hget : p.dGet "type" = some t) (hm : memSafe t = true) :
    column_type p = .ok (mapTypeSpec p) ∧
    mapTypeSpec p ∈ ["jsonb", "timestamp without time zone", "numeric",
                     "character varying", "bigint", "boolean"] := by
  have hdict : p.isDict = true := by
    cases p <;> first | rfl | simp [PVal.dGet] at hget
  simp only [column_type, hdict, if_true, hget, mapTypeSpec,
    pyMemStr_safe _ t hm, Bind.bind, Except.bind]
  by_cases ho : pyMemPure "object" t = true
  · simp [ho]
  by_cases ha : pyMemPure "array" t = true
  · simp [ho, ha]
  by_cases hf : p.dGet "format" = some (.str "date-time")
  · simp [ho, ha, hf]
  by_cases hn : pyMemPure "number" t = true
  · simp [ho, ha, hf, hn]
  by_cases hi : pyMemPure "integer" t = true <;>
    by_cases hs : pyMemPure "string" t = true <;>
    by_cases hb : pyMemPure "boolean" t = true <;>
    simp [ho, ha, hf, hn, hi, hs, hb]

/-- Claim C5 (witness): the amended theorem at the descriptor
`\x7b'type': 'integer'\x7d`, which maps to `bigint`. -/
theorem c5_witness :
    (pDictV [("type", .str "integer")]).dGet "type" = some (.str "integer") ∧
    memSafe (.str "integer") = true ∧
    column_type (pDictV [("type", .str "integer")]) =
      .ok (mapTypeSpec (pDictV [("type", .str "integer")])) ∧
    mapTypeSpec (pDictV [("type", .str "integer")]) ∈
      ["jsonb", "timestamp without time zone", "numeric",
       "character varying", "bigint", "boolean"] :=
  ⟨by decide, by decide,
   c5_column_type_table (pDictV [("type", .str "integer")]) (.str "integer")
     (by decide) (by decide)⟩
/-- Claim C3: on the happy path of a batch load, if the stream has no
key properties `load_csv` issues, in order, the temporary-table CREATE,
the COPY, a single plain `INSERT ... SELECT` append (no UPDATE and no
join), and the DROP of the temporary table; if key properties exist it
issues the CREATE, the COPY, an UPDATE of matching-key rows from the
temporary table first, then an INSERT restricted by a
`LEFT OUTER JOIN ... is null` anti-join to rows whose key is absent
from the permanent table, and then the DROP. -/
theorem c3_load_csv_statements (db : DbSync) (create : String)
    (hc : db.create_table_query true = .ok create) :
    (db.key_properties = [] →
      db.load_csv_statements = .ok [create, db.copy_sql,
        "INSERT INTO " ++ db.table_name db.stream false ++ " (" ++
          joinSep ", " db.column_names ++
          ")\n                    (SELECT s.* FROM " ++ db.table_name db.stream true ++
          " s)\n                    ",
        "DROP TABLE " ++ db.table_name db.stream true]) ∧
    (db.key_properties ≠ [] →
      db.load_csv_statements = .ok [create, db.copy_sql,
        "UPDATE " ++ db.table_name db.stream false ++ " SET " ++
          joinSep ", " (db.column_names.map fun c => c ++ "=s." ++ c) ++
          " FROM " ++ db.table_name db.stream true ++ " s\n        WHERE " ++
          db.primary_key_condition (db.table_name db.stream false) ++ "\n        ",
        "INSERT INTO " ++ db.table_name db.stream false ++ " (" ++
          joinSep ", " db.column_names ++
          ")\n        (SELECT s.* FROM " ++ db.table_name db.stream true ++
          " s LEFT OUTER JOIN " ++ db.table_name db.stream false ++ " t ON " ++
          db.primary_key_condition "t" ++ " WHERE " ++
          db.primary_key_null_condition "t" ++ ")\n        ",
        "DROP TABLE " ++ db.table_name db.stream true]) := by
  constructor
  · intro hk
    unfold DbSync.load_csv_statements
    rw [hc]
    simp [DbSync.insert_from_temp_table, DbSync.update_from_temp_table,
      DbSync.drop_temp_table, hk, Bind.bind, Except.bind]
  · intro hk
    unfold DbSync.load_csv_statements
    rw [hc]
    simp [DbSync.insert_from_temp_table, DbSync.update_from_temp_table,
      DbSync.drop_temp_table, hk, List.length_pos, List.length_eq_zero,
      Bind.bind, Except.bind]

/-- Claim C3 (witness): the theorem at two one-column streams, one
without and one with a key property, with every statement evaluated to
its literal text. -/
theorem c3_witness :
    DbSync.load_csv_statements
      ⟨"public", "orders", [], [("id", pDictV [("type", .str "integer")])]⟩ =
      .ok ["CREATE TEMP TABLE orders_temp (\"id\" bigint)",
           "COPY orders_temp (\"id\") FROM STDIN WITH (FORMAT CSV, ESCAPE '\\')",
           "INSERT INTO public.orders (\"id\")\n                    (SELECT s.* FROM orders_temp s)\n                    ",
           "DROP TABLE orders_temp"] ∧
    DbSync.load_csv_statements
      ⟨"public", "orders", ["id"], [("id", pDictV [("type", .str "integer")])]⟩ =
      .ok ["CREATE TEMP TABLE orders_temp (\"id\" bigint, PRIMARY KEY (\"id\"))",
           "COPY orders_temp (\"id\") FROM STDIN WITH (FORMAT CSV, ESCAPE '\\')",
           "UPDATE public.orders SET \"id\"=s.\"id\" FROM orders_temp s\n        WHERE s.\"id\" = public.orders.\"id\"\n        ",
           "INSERT INTO public.orders (\"id\")\n        (SELECT s.* FROM orders_temp s LEFT OUTER JOIN public.orders t ON s.\"id\" = t.\"id\" WHERE t.\"id\" is null)\n        ",
           "DROP TABLE orders_temp"] :=
  ⟨(((c3_load_csv_statements
        ⟨"public", "orders", [], [("id", pDictV [("type", .str "integer")])]⟩
        "CREATE TEMP TABLE orders_temp (\"id\" bigint)" (by decide)).1 rfl).trans
      (by decide)),
   (((c3_load_csv_statements
        ⟨"public", "orders", ["id"], [("id", pDictV [("type", .str "integer")])]⟩
        "CREATE TEMP TABLE orders_temp (\"id\" bigint, PRIMARY KEY (\"id\"))"
        (by decide)).2 (by decide)).trans
      (by decide))⟩
theorem columns_to_add_complete :
    ∀ fs cat L, columns_to_add fs cat = .ok L →
      ∀ n sch, (n, sch) ∈ fs → cdictFind cat (lowerStr n) = none →
        ∃ cl, column_clause n sch = .ok cl ∧ cl ∈ L := by
  intro fs
  induction fs with
  | nil =>
    intro cat L _ n sch hmem _
    simp at hmem
  | cons hd rest ih =>
    obtain ⟨name, schema⟩ := hd
    intro cat L hok n sch hmem hfind
    simp only [columns_to_add] at hok
    rcases List.mem_cons.mp hmem with heq | htail
    · rw [Prod.mk.injEq] at heq
      obtain ⟨rfl, rfl⟩ := heq
      rw [hfind] at hok
      have hnone : (none : Option (String × String)).isNone = true := rfl
      rw [if_pos hnone] at hok
      cases hc : column_clause n sch with
      | error e =>
        rw [hc] at hok
        simp [Bind.bind, Except.bind] at hok
      | ok c =>
        cases hrest : columns_to_add rest cat with
        | error e =>
          rw [hc, hrest] at hok
          simp [Bind.bind, Except.bind] at hok
        | ok r =>
          rw [hc, hrest] at hok
          simp only [Bind.bind, Except.bind] at hok
          injection hok with hok
          subst hok
          exact ⟨c, rfl, List.mem_cons_self _ _⟩
    · by_cases hcnd : (cdictFind cat (lowerStr name)).isNone = true
      · rw [if_pos hcnd] at hok
        cases hc : column_clause name schema with
        | error e =>
          rw [hc] at hok
          simp [Bind.bind, Except.bind] at hok
        | ok c =>
          cases hrest : columns_to_add rest cat with
          | error e =>
            rw [hc, hrest] at hok
            simp [Bind.bind, Except.bind] at hok
          | ok r =>
            rw [hc, hrest] at hok
            simp only [Bind.bind, Except.bind] at hok
            injection hok with hok
            subst hok
            obtain ⟨cl, hcl, hm⟩ := ih cat r hrest n sch htail hfind
            exact ⟨cl, hcl, List.mem_cons_of_mem _ hm⟩
      · rw [if_neg hcnd] at hok
        exact ih cat L hok n sch htail hfind

theorem columns_to_add_sound :
    ∀ fs cat L, columns_to_add fs cat = .ok L →
      ∀ cl, cl ∈ L →
        ∃ n sch, (n, sch) ∈ fs ∧ cdictFind cat (lowerStr n) = none ∧
          column_clause n sch = .ok cl := by
  intro fs
  induction fs with
  | nil =>
    intro cat L hok cl hm
    simp only [columns_to_add] at hok
    injection hok with hok
    subst hok
    simp at hm
  | cons hd rest ih =>
    obtain ⟨name, schema⟩ := hd
    intro cat L hok cl hm
    simp only [columns_to_add] at hok
    by_cases hcnd : (cdictFind cat (lowerStr name)).isNone = true
    · rw [if_pos hcnd] at hok
      cases hc : column_clause name schema with
      | error e =>
        rw [hc] at hok
        simp [Bind.bind, Except.bind] at hok
      | ok c =>
        cases hrest : columns_to_add rest cat with
        | error e =>
          rw [hc, hrest] at hok
          simp [Bind.bind, Except.bind] at hok
        | ok r =>
          rw [hc, hrest] at hok
          simp only [Bind.bind, Except.bind] at hok
          injection hok with hok
          subst hok
          rcases List.mem_cons.mp hm with rfl | hm2
          · exact ⟨name, schema, List.mem_cons_self _ _,
              Option.isNone_iff_eq_none.mp hcnd, hc⟩
          · obtain ⟨n, sch, h1, h2, h3⟩ := ih cat r hrest cl hm2
            exact ⟨n, sch, List.mem_cons_of_mem _ h1, h2, h3⟩
    · rw [if_neg hcnd] at hok
      obtain ⟨n, sch, h1, h2, h3⟩ := ih cat L hok cl hm
      exact ⟨n, sch, List.mem_cons_of_mem _ h1, h2, h3⟩

theorem columns_to_replace_complete :
    ∀ fs cat L, columns_to_replace fs cat = .ok L →
      ∀ n sch row ct, (n, sch) ∈ fs → cdictFind cat (lowerStr n) = some row →
        column_type sch = .ok ct → lowerStr row.2 ≠ lowerStr ct →
        (safe_column_name n, safe_column_name n ++ " " ++ ct) ∈ L := by
  intro fs
  induction fs with
  | nil =>
    intro cat L _ n sch row ct hmem _ _ _
    simp at hmem
  | cons hd rest ih =>
    obtain ⟨name, schema⟩ := hd
    intro cat L hok n sch row ct hmem hfind hct hne
    simp only [columns_to_replace] at hok
    rcases List.mem_cons.mp hmem with heq | htail
    · rw [Prod.mk.injEq] at heq
      obtain ⟨rfl, rfl⟩ := heq
      simp only [hfind] at hok
      rw [hct] at hok
      simp only [Bind.bind, Except.bind] at hok
      rw [if_pos hne] at hok
      have hcc : column_clause n sch = .ok (safe_column_name n ++ " " ++ ct) := by
        simp only [column_clause, hct, Bind.bind, Except.bind]
      cases hrest : columns_to_replace rest cat with
      | error e =>
        rw [hcc, hrest] at hok
        simp [Bind.bind, Except.bind] at hok
      | ok r =>
        rw [hcc, hrest] at hok
        simp only [Bind.bind, Except.bind] at hok
        injection hok with hok
        subst hok
        exact List.mem_cons_self _ _
    · cases hfc : cdictFind cat (lowerStr name) with
      | none =>
        simp only [hfc] at hok
        exact ih cat L hok n sch row ct htail hfind hct hne
      | some col =>
        simp only [hfc] at hok
        cases hc2 : column_type schema with
        | error e =>
          rw [hc2] at hok
          simp [Bind.bind, Except.bind] at hok
        | ok ct2 =>
          rw [hc2] at hok
          simp only [Bind.bind, Except.bind] at hok
          by_cases hne2 : lowerStr col.2 ≠ lowerStr ct2
          · rw [if_pos hne2] at hok
            have hcc : column_clause name schema =
                .ok (safe_column_name name ++ " " ++ ct2) := by
              simp only [column_clause, hc2, Bind.bind, Except.bind]
            cases hrest : columns_to_replace rest cat with
            | error e =>
              rw [hcc, hrest] at hok
              simp [Bind.bind, Except.bind] at hok
            | ok r =>
              rw [hcc, hrest] at hok
              simp only [Bind.bind, Except.bind] at hok
              injection hok with hok
              subst hok
              exact List.mem_cons_of_mem _ (ih cat r hrest n sch row ct htail hfind hct hne)
          · rw [if_neg hne2] at hok
            exact ih cat L hok n sch row ct htail hfind hct hne

theorem columns_to_replace_sound :
    ∀ fs cat L, columns_to_replace fs cat = .ok L →
      ∀ p, p ∈ L →
        ∃ n sch row ct, (n, sch) ∈ fs ∧ cdictFind cat (lowerStr n) = some row ∧
          column_type sch = .ok ct ∧ lowerStr row.2 ≠ lowerStr ct ∧
          p = (safe_column_name n, safe_column_name n ++ " " ++ ct) := by
  intro fs
  induction fs with
  | nil =>
    intro cat L hok p hm
    simp only [columns_to_replace] at hok
    injection hok with hok
    subst hok
    simp at hm
  | cons hd rest ih =>
    obtain ⟨name, schema⟩ := hd
    intro cat L hok p hm
    simp only [columns_to_replace] at hok
    cases hfc : cdictFind cat (lowerStr name) with
    | none =>
      simp only [hfc] at hok
      obtain ⟨n, sch, row, ct, h1, h2, h3, h4, h5⟩ := ih cat L hok p hm
      exact ⟨n, sch, row, ct, List.mem_cons_of_mem _ h1, h2, h3, h4, h5⟩
    | some col =>
      simp only [hfc] at hok
      cases hc2 : column_type schema with
      | error e =>
        rw [hc2] at hok
        simp [Bind.bind, Except.bind] at hok
      | ok ct2 =>
        rw [hc2] at hok
        simp only [Bind.bind, Except.bind] at hok
        by_cases hne2 : lowerStr col.2 ≠ lowerStr ct2
        · rw [if_pos hne2] at hok
          have hcc : column_clause name schema =
              .ok (safe_column_name name ++ " " ++ ct2) := by
            simp only [column_clause, hc2, Bind.bind, Except.bind]
          cases hrest : columns_to_replace rest cat with
          | error e =>
            rw [hcc, hrest] at hok
            simp [Bind.bind, Except.bind] at hok
          | ok r =>
            rw [hcc, hrest] at hok
            simp only [Bind.bind, Except.bind] at hok
            injection hok with hok
            subst hok
            rcases List.mem_cons.mp hm with rfl | hm2
            · exact ⟨name, schema, col, ct2, List.mem_cons_self _ _, hfc, hc2, hne2, rfl⟩
            · obtain ⟨n, sch, row, ct, h1, h2, h3, h4, h5⟩ := ih cat r hrest p hm2
              exact ⟨n, sch, row, ct, List.mem_cons_of_mem _ h1, h2, h3, h4, h5⟩
        · rw [if_neg hne2] at hok
          obtain ⟨n, sch, row, ct, h1, h2, h3, h4, h5⟩ := ih cat L hok p hm
          exact ⟨n, sch, row, ct, List.mem_cons_of_mem _ h1, h2, h3, h4, h5⟩

/-- Claim C7: when `update_columns` succeeds against an observed
catalog, (i) every flattened column whose lowercased name is absent
from the catalog gets its ADD COLUMN action with the mapped clause;
(ii) every flattened column present in the catalog whose recorded type
differs case-insensitively from the newly mapped type gets a
DROP COLUMN of exactly its quoted name together with a re-ADD with the
fresh clause; and, for the frame, (iii) every emitted DROP is of the
quoted name of some type-changed flattened column, and (iv) every
emitted ADD is the clause of some flattened column that was either
missing or type-changed — so no other existing column is touched. -/
theorem c7_update_columns (db : DbSync) (catalog : List (String × String))
    (acts : List DbAction) (h : db.update_columns catalog = .ok acts) :
    (∀ n sch, (n, sch) ∈ db.flatten_schema →
      cdictFind catalog (lowerStr n) = none →
      ∃ cl, column_clause n sch = .ok cl ∧ DbAction.addColumn cl ∈ acts) ∧
    (∀ n sch row ct, (n, sch) ∈ db.flatten_schema →
      cdictFind catalog (lowerStr n) = some row →
      column_type sch = .ok ct → lowerStr row.2 ≠ lowerStr ct →
      DbAction.dropColumn (safe_column_name n) ∈ acts ∧
      DbAction.addColumn (safe_column_name n ++ " " ++ ct) ∈ acts) ∧
    (∀ nm, DbAction.dropColumn nm ∈ acts →
      ∃ n sch row ct, (n, sch) ∈ db.flatten_schema ∧ nm = safe_column_name n ∧
        cdictFind catalog (lowerStr n) = some row ∧ column_type sch = .ok ct ∧
        lowerStr row.2 ≠ lowerStr ct) ∧
    (∀ cl, DbAction.addColumn cl ∈ acts →
      ∃ n sch, (n, sch) ∈ db.flatten_schema ∧ column_clause n sch = .ok cl ∧
        (cdictFind catalog (lowerStr n) = none ∨
         ∃ row ct, cdictFind catalog (lowerStr n) = some row ∧
           column_type sch = .ok ct ∧ lowerStr row.2 ≠ lowerStr ct)) := by
  unfold DbSync.update_columns at h
  cases ha : columns_to_add db.flatten_schema catalog with
  | error e =>
    rw [ha] at h
    simp [Bind.bind, Except.bind] at h
  | ok adds =>
    cases hrp : columns_to_replace db.flatten_schema catalog with
    | error e =>
      rw [ha, hrp] at h
      simp [Bind.bind, Except.bind] at h
    | ok reps =>
      rw [ha, hrp] at h
      simp only [Bind.bind, Except.bind] at h
      injection h with h
      subst h
      refine ⟨?_, ?_, ?_, ?_⟩
      · intro n sch hmem hfind
        obtain ⟨cl, hcl, hm⟩ := columns_to_add_complete _ _ _ ha n sch hmem hfind
        exact ⟨cl, hcl, List.mem_append.mpr (Or.inl (List.mem_map.mpr ⟨cl, hm, rfl⟩))⟩
      · intro n sch row ct hmem hfind hct hne
        have hp := columns_to_replace_complete _ _ _ hrp n sch row ct hmem hfind hct hne
        constructor
        · exact List.mem_append.mpr (Or.inr (List.mem_flatMap.mpr ⟨_, hp, by simp⟩))
        · exact List.mem_append.mpr (Or.inr (List.mem_flatMap.mpr ⟨_, hp, by simp⟩))
      · intro nm hmem
        rcases List.mem_append.mp hmem with hadd | hrep
        · obtain ⟨c, _, heq⟩ := List.mem_map.mp hadd
          exact DbAction.noConfusion heq
        · obtain ⟨p, hp, hin⟩ := List.mem_flatMap.mp hrep
          obtain ⟨n, sch, row, ct, h1, h2, h3, h4, h5⟩ :=
            columns_to_replace_sound _ _ _ hrp p hp
          simp only [List.mem_cons, List.mem_singleton] at hin
          rcases hin with hin | hin | hin
          · injection hin with hin
            refine ⟨n, sch, row, ct, h1, ?_, h2, h3, h4⟩
            rw [hin, h5]
          · exact DbAction.noConfusion hin
          · simp at hin
      · intro cl hmem
        rcases List.mem_append.mp hmem with hadd | hrep
        · obtain ⟨c, hcm, heq⟩ := List.mem_map.mp hadd
          injection heq with heq
          subst heq
          obtain ⟨n, sch, h1, h2, h3⟩ := columns_to_add_sound _ _ _ ha c hcm
          exact ⟨n, sch, h1, h3, Or.inl h2⟩
        · obtain ⟨p, hp, hin⟩ := List.mem_flatMap.mp hrep
          obtain ⟨n, sch, row, ct, h1, h2, h3, h4, h5⟩ :=
            columns_to_replace_sound _ _ _ hrp p hp
          simp only [List.mem_cons, List.mem_singleton] at hin
          rcases hin with hin | hin | hin
          · exact DbAction.noConfusion hin
          · injection hin with hin
            refine ⟨n, sch, h1, ?_, Or.inr ⟨row, ct, h2, h3, h4⟩⟩
            rw [hin, h5]
            simp [column_clause, h3, Bind.bind, Except.bind]
          · simp at hin
/-- Claim C7 (witness): the theorem at a two-column schema against a
catalog where `name` is missing (added) and `age` is recorded as text
while the fresh mapping is `bigint` (dropped and re-added). -/
theorem c7_witness :
    DbAction.dropColumn (safe_column_name "age") ∈
      [DbAction.addColumn "\"name\" character varying",
       DbAction.dropColumn "\"age\"", DbAction.addColumn "\"age\" bigint"] ∧
    DbAction.addColumn (safe_column_name "age" ++ " " ++ "bigint") ∈
      [DbAction.addColumn "\"name\" character varying",
       DbAction.dropColumn "\"age\"", DbAction.addColumn "\"age\" bigint"] :=
  (c7_update_columns
      ⟨"public", "t", [], [("age", pDictV [("type", .str "integer")]),
                           ("name", pDictV [("type", .str "string")])]⟩
      [("age", "character varying")]
      [DbAction.addColumn "\"name\" character varying",
       DbAction.dropColumn "\"age\"", DbAction.addColumn "\"age\" bigint"]
      (by decide)).2.1 "age" (pDictV [("type", .str "integer")])
      ("age", "character varying") "bigint"
      (by decide) (by decide) (by decide) (by decide)
